import Mathlib

/-!
Verification of the contract-network evolution core.

This file is a shallow embedding, in Lean 4, of the core data model and
algorithms of the contract-network repository: the zonotope region algebra
(zonotope_ops.py), the behavior-set algebra (contracts/behavior.py), the
deviation lattice and contract reconstruction (contracts/deviation.py),
the contract network with Tarjan SCC detection (network/contract_network.py),
well-formedness checking (network/validation.py), and the evolution operator
with the fixpoint engine (network/evolution.py).

Numbers are modelled by the rationals; the floating-point tolerances of the
source (1e-12 for generator removal and emptiness, 1e-9 for box containment,
numpy allclose with atol 1e-12 and rtol 1e-5) are carried as exact rational
constants.  Euclidean-norm comparisons against a tolerance are modelled by
comparing squared norms against the squared tolerance, which is equivalent.
Presentation-only behaviour of the source (string formatting, file snapshots,
wall-clock timing) is not modelled; violations of the well-formedness checker
are modelled as structured values rather than formatted strings.  The fixpoint
engine's volume metrics are modelled faithfully: the source calls
BehaviorSet.volume, a method that does not exist (BehaviorSet only defines
total_volume_estimate), so both engine construction and the per-iteration
metrics computation raise AttributeError; these attribute accesses are
modelled as always-failing calls.
-/

/-- Generic list helpers used throughout the embedding. -/
def concatMap {α β : Type} (f : α → List β) : List α → List β
  | [] => []
  | a :: l => f a ++ concatMap f l

/-- Insert into a sorted list according to a boolean "less or equal" test. -/
def insertLe {α : Type} (le : α → α → Bool) (a : α) : List α → List α
  | [] => [a]
  | b :: l => if le a b then a :: b :: l else b :: insertLe le a l

/-- Insertion sort according to a boolean "less or equal" test; used to model
the canonical sorting of variable names and of SCC output in the source. -/
def sortLe {α : Type} (le : α → α → Bool) : List α → List α
  | [] => []
  | a :: l => insertLe le a (sortLe le l)

/-- Lexicographic comparison of character lists by code point. -/
def charListLe : List Char → List Char → Bool
  | [], _ => true
  | _ :: _, [] => false
  | c :: cs, d :: ds => if c < d then true else if d < c then false else charListLe cs ds

/-- Lexicographic "less or equal" on strings by code point, matching Python
string comparison. -/
def strLeB (a b : String) : Bool := charListLe a.data b.data

/-- Lookup in an association list (first match), modelling Python dict lookup. -/
def alGet {α : Type} : List (String × α) → String → Option α
  | [], _ => none
  | (k', v') :: rest, k => if k' = k then some v' else alGet rest k

/-- Update an association list in place, or append when the key is absent:
the semantics of assignment into a Python dict (insertion order preserved). -/
def alSet {α : Type} : List (String × α) → String → α → List (String × α)
  | [], k, v => [(k, v)]
  | (k', v') :: rest, k, v =>
    if k' = k then (k, v) :: rest else (k', v') :: alSet rest k v

/-- Index of the first occurrence of a string in a list (list.index in Python). -/
def idxOfStr : List String → String → Nat
  | [], _ => 0
  | a :: rest, v => if a = v then 0 else idxOfStr rest v + 1

/-- Python set equality of the underlying variable-name collections. -/
def sameVarSet (a b : List String) : Bool :=
  a.all (fun v => b.contains v) && b.all (fun v => a.contains v)

/-- Rational addition in an executable normal form (equal to addition on
the rationals; see qadd_eq_add below).  The library's rational addition is
deliberately opaque to definitional unfolding, so the embedding computes
through mkRat instead. -/
def qadd (a b : ℚ) : ℚ := mkRat (a.num * b.den + b.num * a.den) (a.den * b.den)

/-- Rational subtraction in an executable normal form. -/
def qsub (a b : ℚ) : ℚ := mkRat (a.num * b.den - b.num * a.den) (a.den * b.den)

/-- Rational multiplication in an executable normal form. -/
def qmul (a b : ℚ) : ℚ := mkRat (a.num * b.num) (a.den * b.den)

/-- Halving in an executable normal form. -/
def qhalf (a : ℚ) : ℚ := mkRat a.num (a.den * 2)

/-- Absolute value in an executable normal form. -/
def qabs (a : ℚ) : ℚ := if a < 0 then -a else a

/-- Sum of a list of rationals through qadd. -/
def qsum (l : List ℚ) : ℚ := l.foldr qadd 0

/-- The tolerance 1e-12 used by the source for generator removal, emptiness
tests and the carve guards in zonotope_subtract. -/
def genTol : ℚ := mkRat 1 1000000000000

/-- Squared 1e-12, for Euclidean-norm comparisons modelled on squared norms. -/
def genTolSq : ℚ := qmul genTol genTol

/-- The tolerance 1e-9 of Zonotope.contains (box method). -/
def boxTol : ℚ := mkRat 1 1000000000

/-- Relative tolerance 1e-5 of numpy allclose (its default rtol). -/
def rtolClose : ℚ := mkRat 1 100000

/-- Elementwise closeness of numpy allclose with atol 1e-12. -/
def closeQ (x y : ℚ) : Bool :=
  decide (qabs (qsub x y) ≤ qadd genTol (qmul rtolClose (qabs y)))

/-- A zonotope {c + G xi : xi in [-1,1]^p} with rational entries.
The generator matrix is stored as its list of columns, each column a vector
of length n (the dimension, the length of the center). -/
structure Zonotope where
  center : List ℚ
  generators : List (List ℚ)
deriving DecidableEq

/-- Squared Euclidean norm of a generator column. -/
def colSumSq (g : List ℚ) : ℚ := qsum (g.map (fun x => qmul x x))

/-- Remove generator columns whose Euclidean norm is at most 1e-12
(Zonotope._remove_zero_generators): keep everything when there are no
columns; when all columns are below tolerance, keep only the first. -/
def removeZeroGenerators (gens : List (List ℚ)) : List (List ℚ) :=
  if gens.isEmpty then gens
  else
    let nz := gens.filter (fun g => decide (genTolSq < colSumSq g))
    if nz.isEmpty then gens.take 1 else nz

/-- The Zonotope constructor (dataclass __post_init__): normalizes by
removing near-zero generator columns. -/
def Zonotope.make (center : List ℚ) (gens : List (List ℚ)) : Zonotope :=
  ⟨center, removeZeroGenerators gens⟩

/-- Zonotope.from_box: axis-aligned box from a list of (min, max) bounds.
The generator matrix is the diagonal matrix of half-widths, then the
constructor's zero-column removal applies. -/
def Zonotope.from_box (bounds : List (ℚ × ℚ)) : Zonotope :=
  let n := bounds.length
  let center := bounds.map (fun b => qhalf (qadd b.1 b.2))
  let halfs := bounds.map (fun b => qhalf (qsub b.2 b.1))
  let gens := (List.range n).map (fun j =>
    (List.range n).map (fun i => if i = j then halfs.getD j 0 else 0))
  Zonotope.make center gens

/-- Zonotope.to_box_bounds: per axis, center plus/minus the sum of the
absolute values of the generator entries on that axis. -/
def Zonotope.to_box_bounds (z : Zonotope) : List (ℚ × ℚ) :=
  (List.range z.center.length).map (fun i =>
    let h := qsum (z.generators.map (fun g => qabs (g.getD i 0)))
    (qsub (z.center.getD i 0) h, qadd (z.center.getD i 0) h))

/-- Zonotope.is_empty: no generators at all, or some axis of the bounding
box has extent below 1e-12. -/
def Zonotope.is_empty (z : Zonotope) : Bool :=
  z.generators.length == 0 ||
    z.to_box_bounds.any (fun b => decide (qsub b.2 b.1 < genTol))

/-- Zonotope.contains with the default box method and tolerance 1e-9:
the point lies within the bounding box widened by the tolerance. -/
def Zonotope.containsBox (z : Zonotope) (point : List ℚ) : Bool :=
  (z.to_box_bounds.zip point).all (fun p =>
    decide (qsub p.1.1 boxTol ≤ p.2) && decide (p.2 ≤ qadd p.1.2 boxTol))

/-- zonotope_intersection: intersect the two bounding boxes; on an empty
axis intersection return the degenerate box at the origin, as the source does. -/
def zonotope_intersection (z1 z2 : Zonotope) : Zonotope :=
  let b1 := z1.to_box_bounds
  let b2 := z2.to_box_bounds
  let inter := b1.zipWith (fun a b => (max a.1 b.1, min a.2 b.2)) b2
  if inter.any (fun b => decide (b.2 ≤ b.1)) then
    Zonotope.from_box (List.replicate z1.center.length ((0 : ℚ), (0 : ℚ)))
  else
    Zonotope.from_box inter

/-- zonotope_union: bounding-box hull of the two zonotopes. -/
def zonotope_union (z1 z2 : Zonotope) : Zonotope :=
  let b1 := z1.to_box_bounds
  let b2 := z2.to_box_bounds
  Zonotope.from_box (b1.zipWith (fun a b => (min a.1 b.1, max a.2 b.2)) b2)

/-- numpy allclose on two bounds lists (atol 1e-12, default rtol 1e-5). -/
def allclosePairs (a b : List (ℚ × ℚ)) : Bool :=
  (a.zip b).all (fun p => closeQ p.1.1 p.2.1 && closeQ p.1.2 p.2.2)

/-- The recursive axis-by-axis carve of zonotope_subtract.  The first
argument counts the remaining axes (dimension minus current axis), so the
base case is reached exactly when the source's recursion reaches dim == n.
Pieces are emitted in the source's order: before, overlap, after. -/
def carveAux (bounds1 inter : List (ℚ × ℚ)) :
    Nat → Nat → List (ℚ × ℚ) → List (List (ℚ × ℚ))
  | 0, _, current =>
    if current.all (fun b => decide (b.1 < b.2)) then
      if allclosePairs current inter then [] else [current]
    else []
  | remaining + 1, dim, current =>
    let b1 := bounds1.getD dim (0, 0)
    let it := inter.getD dim (0, 0)
    let before :=
      if decide (b1.1 < qsub it.1 genTol) then
        carveAux bounds1 inter remaining (dim + 1) (current.set dim (b1.1, it.1))
      else []
    let midLo := max b1.1 it.1
    let midHi := min b1.2 it.2
    let mid :=
      if decide (midLo < qsub midHi genTol) then
        carveAux bounds1 inter remaining (dim + 1) (current.set dim (midLo, midHi))
      else []
    let after :=
      if decide (it.2 < qsub b1.2 genTol) then
        carveAux bounds1 inter remaining (dim + 1) (current.set dim (it.2, b1.2))
      else []
    before ++ mid ++ after

/-- zonotope_subtract: bounding-box set difference, returning the original
zonotope when there is no overlap, nothing when fully covered, and the
carved boxes otherwise. -/
def zonotope_subtract (z1 z2 : Zonotope) : List Zonotope :=
  let b1 := z1.to_box_bounds
  let b2 := z2.to_box_bounds
  let inter := b1.zipWith (fun a b => (max a.1 b.1, min a.2 b.2)) b2
  if inter.any (fun b => decide (b.2 ≤ b.1)) then [z1]
  else if (b2.zip b1).all (fun p => decide (p.1.1 ≤ p.2.1) && decide (p.2.2 ≤ p.1.2)) then []
  else (carveAux b1 inter z1.center.length 0 b1).map Zonotope.from_box

/-- A zonotope region with named variables (ZonotopeRegion): one variable
name per dimension. -/
structure ZonotopeRegion where
  vars : List String
  zonotope : Zonotope
deriving DecidableEq

/-- ZonotopeRegion.__init__ from variable bounds: sort the variables
canonically and build an axis-aligned box zonotope. -/
def mkRegion (varBounds : List (String × ℚ × ℚ)) : ZonotopeRegion :=
  let sorted := sortLe (fun a b => strLeB a.1 b.1) varBounds
  ⟨sorted.map (fun p => p.1), Zonotope.from_box (sorted.map (fun p => (p.2.1, p.2.2)))⟩

/-- ZonotopeRegion.from_zonotope: wrap an explicit zonotope with a variable
ordering, with no re-normalization. -/
def ZonotopeRegion.from_zonotope (vars : List String) (z : Zonotope) : ZonotopeRegion :=
  ⟨vars, z⟩

/-- ZonotopeRegion.is_empty. -/
def ZonotopeRegion.is_empty (r : ZonotopeRegion) : Bool := r.zonotope.is_empty

/-- ZonotopeRegion.bounds: the bounding box as a variable-sorted list of
(variable, (min, max)) entries; the frozen key used by deviation equality. -/
def ZonotopeRegion.boundsKey (r : ZonotopeRegion) : List (String × ℚ × ℚ) :=
  sortLe (fun a b => strLeB a.1 b.1)
    ((r.vars.zip r.zonotope.to_box_bounds).map (fun p => (p.1, p.2.1, p.2.2)))

/-- ZonotopeRegion.project: keep the dimensions whose variable is in the
keep set; an empty selection yields the zero-dimensional empty region.  The
projected zonotope passes through the normalizing constructor. -/
def ZonotopeRegion.project (r : ZonotopeRegion) (keep : List String) : ZonotopeRegion :=
  let keepIdx := (List.range r.vars.length).filter
    (fun i => keep.contains (r.vars.getD i ""))
  if keepIdx.isEmpty then mkRegion []
  else
    let newCenter := keepIdx.map (fun i => r.zonotope.center.getD i 0)
    let newGens := r.zonotope.generators.map (fun col => keepIdx.map (fun i => col.getD i 0))
    let newVars := keepIdx.map (fun i => r.vars.getD i "")
    ZonotopeRegion.from_zonotope newVars (Zonotope.make newCenter newGens)

/-- The region cap MAX_ZONOTOPES_PER_SET (the effective value, 20). -/
def MAX_ZONOTOPES_PER_SET : Nat := 20

/-- Merge two variable-compatible regions by bounding-box hull, keeping the
first region's variable ordering, as the cache-management pass does. -/
def mergeRegions (r1 r2 : ZonotopeRegion) : ZonotopeRegion :=
  ZonotopeRegion.from_zonotope r1.vars (zonotope_union r1.zonotope r2.zonotope)

/-- One pass of the cache-management merge loop: merge adjacent
variable-compatible pairs, keep the first of an incompatible pair. -/
def mergePass : List ZonotopeRegion → List ZonotopeRegion
  | [] => []
  | [r] => [r]
  | r1 :: r2 :: rest =>
    if sameVarSet r1.vars r2.vars then
      mergeRegions r1 r2 :: mergePass rest
    else
      r1 :: mergePass (r2 :: rest)

/-- BehaviorSet._apply_cache_management.  The source's while loop runs its
body at most once: after one merge pass it either is under the cap (loop
condition fails) or truncates and breaks. -/
def applyCacheManagement (regions : List ZonotopeRegion) : List ZonotopeRegion :=
  if regions.length ≤ MAX_ZONOTOPES_PER_SET then regions
  else
    let merged := mergePass regions
    if MAX_ZONOTOPES_PER_SET < merged.length then merged.take MAX_ZONOTOPES_PER_SET
    else merged

/-- A behavior set: a finite union of zonotope regions. -/
structure BehaviorSet where
  regions : List ZonotopeRegion
deriving DecidableEq

/-- BehaviorSet.__init__: filter out empty regions, then apply cache
management when the cap is exceeded.  Note the order: filtering happens
before merging, so merge products are not re-filtered here. -/
def BehaviorSet.ofRegions (rs : List ZonotopeRegion) : BehaviorSet :=
  let f := rs.filter (fun r => !r.is_empty)
  ⟨if MAX_ZONOTOPES_PER_SET < f.length then applyCacheManagement f else f⟩

/-- The empty behavior set (BehaviorSet()). -/
def BehaviorSet.empty : BehaviorSet := BehaviorSet.ofRegions []

/-- BehaviorSet.is_empty. -/
def BehaviorSet.isEmptyB (s : BehaviorSet) : Bool := s.regions.isEmpty

/-- BehaviorSet.union: early return on an empty argument, otherwise
concatenate, cache-manage if over the cap, and rebuild through the
constructor. -/
def BehaviorSet.union (s other : BehaviorSet) : BehaviorSet :=
  if other.isEmptyB then BehaviorSet.ofRegions s.regions
  else if s.isEmptyB then BehaviorSet.ofRegions other.regions
  else
    let all := s.regions ++ other.regions
    let all := if MAX_ZONOTOPES_PER_SET < all.length then applyCacheManagement all else all
    BehaviorSet.ofRegions all

/-- BehaviorSet.intersection: pairwise bounding-box intersection of
variable-compatible regions, dropping empty results. -/
def BehaviorSet.intersection (s other : BehaviorSet) : BehaviorSet :=
  BehaviorSet.ofRegions (concatMap (fun r1 =>
    other.regions.filterMap (fun r2 =>
      if sameVarSet r1.vars r2.vars then
        let z := zonotope_intersection r1.zonotope r2.zonotope
        if z.is_empty then none
        else some (ZonotopeRegion.from_zonotope r1.vars z)
      else none)) s.regions)

/-- Subtract one region from every region of a list: variable-incompatible
regions are kept unchanged; otherwise the zonotope subtraction pieces that
are non-empty are kept. -/
def subtractOne (result : List ZonotopeRegion) (rsub : ZonotopeRegion) : List ZonotopeRegion :=
  concatMap (fun region =>
    if sameVarSet region.vars rsub.vars then
      (zonotope_subtract region.zonotope rsub.zonotope).filterMap (fun z =>
        if z.is_empty then none
        else some (ZonotopeRegion.from_zonotope region.vars z))
    else [region]) result

/-- BehaviorSet.difference: early return on empty subtrahend; otherwise
subtract region by region, cache-managing whenever the intermediate result
exceeds the cap, then rebuild through the constructor. -/
def BehaviorSet.difference (s other : BehaviorSet) : BehaviorSet :=
  if other.isEmptyB then BehaviorSet.ofRegions s.regions
  else
    let res := other.regions.foldl (fun acc rsub =>
      let nr := subtractOne acc rsub
      if MAX_ZONOTOPES_PER_SET < nr.length then applyCacheManagement nr else nr)
      s.regions
    BehaviorSet.ofRegions res

/-- BehaviorSet.project: project each region onto its variables that lie in
the given set, keeping non-empty projections with a non-empty variable
selection. -/
def BehaviorSet.project (s : BehaviorSet) (vars : List String) : BehaviorSet :=
  BehaviorSet.ofRegions (s.regions.filterMap (fun r =>
    if (r.vars.filter (fun v => vars.contains v)).isEmpty then none
    else
      let pr := r.project vars
      if pr.is_empty then none else some pr))

/-- One region's bounding box contained in another variable-compatible
region's bounding box, compared variable by variable. -/
def coveredBy (r1 r2 : ZonotopeRegion) : Bool :=
  sameVarSet r1.vars r2.vars &&
    (let b1 := r1.zonotope.to_box_bounds
     let b2 := r2.zonotope.to_box_bounds
     r1.vars.all (fun v =>
       let p1 := b1.getD (idxOfStr r1.vars v) (0, 0)
       let p2 := b2.getD (idxOfStr r2.vars v) (0, 0)
       decide (p2.1 ≤ p1.1) && decide (p1.2 ≤ p2.2)))

/-- BehaviorSet.subset_of: the conservative bounding-box subset test. -/
def BehaviorSet.subset_of (s other : BehaviorSet) : Bool :=
  if s.isEmptyB then true
  else if other.isEmptyB then false
  else s.regions.all (fun r1 => other.regions.any (fun r2 => coveredBy r1 r2))

/-- Membership of a point (over a single region's coordinates) in a
behavior set, via the box containment of Zonotope.contains. -/
def BehaviorSet.containsPoint (s : BehaviorSet) (point : List ℚ) : Bool :=
  s.regions.any (fun r => r.zonotope.containsBox point)

/-- An assume-guarantee contract C = (A, G). -/
structure Contract where
  assumptions : BehaviorSet
  guarantees : BehaviorSet
deriving DecidableEq

/-- Contract.project_guarantees. -/
def Contract.project_guarantees (c : Contract) (vars : List String) : BehaviorSet :=
  c.guarantees.project vars

/-- Contract.project_assumptions. -/
def Contract.project_assumptions (c : Contract) (vars : List String) : BehaviorSet :=
  c.assumptions.project vars

/-- A deviation: the four behavior-set deltas of a contract. -/
structure Deviation where
  assumption_relaxation : BehaviorSet
  assumption_strengthening : BehaviorSet
  guarantee_relaxation : BehaviorSet
  guarantee_strengthening : BehaviorSet
deriving DecidableEq

/-- The empty deviation (the dataclass defaults: four empty behavior sets). -/
def Deviation.emptyDev : Deviation :=
  ⟨BehaviorSet.empty, BehaviorSet.empty, BehaviorSet.empty, BehaviorSet.empty⟩

/-- Deviation.is_empty. -/
def Deviation.is_emptyD (d : Deviation) : Bool :=
  d.assumption_relaxation.isEmptyB && d.assumption_strengthening.isEmptyB &&
  d.guarantee_relaxation.isEmptyB && d.guarantee_strengthening.isEmptyB

/-- Deviation.total_magnitude: the sum of the region counts of the four
behavior sets (an integer in the source, typed float there). -/
def Deviation.total_magnitude (d : Deviation) : Nat :=
  d.assumption_relaxation.regions.length + d.assumption_strengthening.regions.length +
  d.guarantee_relaxation.regions.length + d.guarantee_strengthening.regions.length

/-- Deviation.union_with: componentwise behavior-set union. -/
def Deviation.union_with (d other : Deviation) : Deviation :=
  ⟨d.assumption_relaxation.union other.assumption_relaxation,
   d.assumption_strengthening.union other.assumption_strengthening,
   d.guarantee_relaxation.union other.guarantee_relaxation,
   d.guarantee_strengthening.union other.guarantee_strengthening⟩

/-- Deviation.subset_of: componentwise behavior-set subset. -/
def Deviation.subset_ofD (d other : Deviation) : Bool :=
  d.assumption_relaxation.subset_of other.assumption_relaxation &&
  d.assumption_strengthening.subset_of other.assumption_strengthening &&
  d.guarantee_relaxation.subset_of other.guarantee_relaxation &&
  d.guarantee_strengthening.subset_of other.guarantee_strengthening

/-- Deviation._boxes_equal: same region count and the same set of frozen
bounding-box representations (order-independent). -/
def boxesEqual (b1 b2 : BehaviorSet) : Bool :=
  b1.regions.length == b2.regions.length &&
    (let s1 := b1.regions.map ZonotopeRegion.boundsKey
     let s2 := b2.regions.map ZonotopeRegion.boundsKey
     s1.all (fun x => s2.contains x) && s2.all (fun x => s1.contains x))

/-- Deviation.__eq__: structural equality used for fixpoint detection:
equal region counts per part, plus equal bounding-box sets per part. -/
def Deviation.eqD (d1 d2 : Deviation) : Bool :=
  d1.assumption_relaxation.regions.length == d2.assumption_relaxation.regions.length &&
  d1.assumption_strengthening.regions.length == d2.assumption_strengthening.regions.length &&
  d1.guarantee_relaxation.regions.length == d2.guarantee_relaxation.regions.length &&
  d1.guarantee_strengthening.regions.length == d2.guarantee_strengthening.regions.length &&
  boxesEqual d1.assumption_relaxation d2.assumption_relaxation &&
  boxesEqual d1.assumption_strengthening d2.assumption_strengthening &&
  boxesEqual d1.guarantee_relaxation d2.guarantee_relaxation &&
  boxesEqual d1.guarantee_strengthening d2.guarantee_strengthening

/-- A deviation map: component name to deviation, modelled as an insertion
ordered association list (Python dict). -/
structure DeviationMap where
  devs : List (String × Deviation)
deriving DecidableEq

/-- DeviationMap.get_deviation: the stored deviation, or the empty one. -/
def DeviationMap.get_deviation (m : DeviationMap) (c : String) : Deviation :=
  (alGet m.devs c).getD Deviation.emptyDev

/-- DeviationMap.set_deviation. -/
def DeviationMap.set_deviation (m : DeviationMap) (c : String) (d : Deviation) : DeviationMap :=
  ⟨alSet m.devs c d⟩

/-- DeviationMap.update_deviation: union the stored deviation with the new
delta (monotone update). -/
def DeviationMap.update_deviation (m : DeviationMap) (c : String) (d : Deviation) : DeviationMap :=
  m.set_deviation c ((m.get_deviation c).union_with d)

/-- DeviationMap.total_magnitude. -/
def DeviationMap.total_magnitude (m : DeviationMap) : Nat :=
  (m.devs.map (fun p => p.2.total_magnitude)).sum

/-- DeviationMap.__eq__: same key set, and structurally equal deviation per
key. -/
def DeviationMap.eqM (m1 m2 : DeviationMap) : Bool :=
  m1.devs.all (fun p => (alGet m2.devs p.1).isSome) &&
  m2.devs.all (fun p => (alGet m1.devs p.1).isSome) &&
  m1.devs.all (fun p =>
    match alGet m2.devs p.1 with
    | some d => Deviation.eqD p.2 d
    | none => false)

/-- DeviationMap.copy: rebuild each part through the BehaviorSet
constructor, as the source does. -/
def DeviationMap.copy (m : DeviationMap) : DeviationMap :=
  ⟨m.devs.map (fun p =>
    (p.1, ⟨BehaviorSet.ofRegions p.2.assumption_relaxation.regions,
           BehaviorSet.ofRegions p.2.assumption_strengthening.regions,
           BehaviorSet.ofRegions p.2.guarantee_relaxation.regions,
           BehaviorSet.ofRegions p.2.guarantee_strengthening.regions⟩))⟩

/-- reconstruct_contract: A-star is (A0 union dArel) minus dAstr, G-star is
(G0 union dGrel) minus dGstr. -/
def reconstruct_contract (baseline : Contract) (deviation : Deviation) : Contract :=
  ⟨(baseline.assumptions.union deviation.assumption_relaxation).difference
      deviation.assumption_strengthening,
   (baseline.guarantees.union deviation.guarantee_relaxation).difference
      deviation.guarantee_strengthening⟩

/-- An interface: supplier, consumer, and the shared variables. -/
structure Interface where
  supplier : String
  consumer : String
  vars : List String
deriving DecidableEq

/-- A component node: name, input and output variables, baseline contract. -/
structure ComponentNode where
  name : String
  inputs : List String
  outputs : List String
  baseline_contract : Contract
deriving DecidableEq

/-- A contract network: components keyed by name (insertion-ordered dict),
and the interface list. -/
structure ContractNetwork where
  components : List (String × ComponentNode)
  interfaces : List Interface
deriving DecidableEq

/-- ContractNetwork.get_component. -/
def ContractNetwork.get_component (net : ContractNetwork) (name : String) : Option ComponentNode :=
  alGet net.components name

/-- ContractNetwork.get_consumers: consumers of the interfaces that the
given component supplies, in interface order. -/
def ContractNetwork.get_consumers (net : ContractNetwork) (c : String) : List String :=
  (net.interfaces.filter (fun i => i.supplier == c)).map (fun i => i.consumer)

/-- The names of the network's components, in insertion order. -/
def ContractNetwork.names (net : ContractNetwork) : List String :=
  net.components.map (fun p => p.1)

/-- The state of Tarjan's algorithm: the counter, the index and lowlink
tables, the stack (head is the top), the on-stack flags, and the emitted
SCCs. -/
structure TarjanSt where
  counter : Nat
  indexMap : List (String × Nat)
  lowlink : List (String × Nat)
  stack : List String
  onStack : List (String × Bool)
  sccs : List (List String)
deriving DecidableEq

/-- The on-stack test on_stack.get(w, False). -/
def lookupBool (l : List (String × Bool)) (k : String) : Bool :=
  (alGet l k).getD false

/-- Pop the stack down to and including the root v, collecting the SCC in
pop order and clearing the on-stack flags. -/
def popUntil (v : String) : List String → List (String × Bool) →
    (List String × List String × List (String × Bool))
  | [], os => ([], [], os)
  | w :: rest, os =>
    let os' := alSet os w false
    if w = v then ([w], rest, os')
    else
      let r := popUntil v rest os'
      (w :: r.1, r.2.1, r.2.2)

mutual

/-- Tarjan strongconnect, with a fuel argument standing in for Python's
unbounded recursion; with fuel exceeding the number of unindexed nodes the
fuel never runs out. -/
def strongconnect (net : ContractNetwork) : Nat → String → TarjanSt → TarjanSt
  | 0, _, st => st
  | fuel + 1, v, st =>
    let st1 : TarjanSt :=
      { counter := st.counter + 1
        indexMap := alSet st.indexMap v st.counter
        lowlink := alSet st.lowlink v st.counter
        stack := v :: st.stack
        onStack := alSet st.onStack v true
        sccs := st.sccs }
    let st2 := processSucc net fuel v (net.get_consumers v) st1
    if alGet st2.lowlink v = alGet st2.indexMap v then
      let r := popUntil v st2.stack st2.onStack
      { st2 with stack := r.2.1, onStack := r.2.2,
                 sccs := st2.sccs ++ [sortLe strLeB r.1] }
    else st2
termination_by fuel _ _ => (fuel, 0)

/-- The successor loop of strongconnect. -/
def processSucc (net : ContractNetwork) : Nat → String → List String → TarjanSt → TarjanSt
  | _, _, [], st => st
  | fuel, v, w :: ws, st =>
    let st' :=
      if (alGet st.indexMap w).isNone then
        let stw := strongconnect net fuel w st
        let ll := alSet stw.lowlink v (min ((alGet stw.lowlink v).getD 0) ((alGet stw.lowlink w).getD 0))
        { stw with lowlink := ll }
      else if lookupBool st.onStack w then
        let ll := alSet st.lowlink v (min ((alGet st.lowlink v).getD 0) ((alGet st.indexMap w).getD 0))
        { st with lowlink := ll }
      else st
    processSucc net fuel v ws st'
termination_by fuel _ ws _ => (fuel, ws.length + 1)

end

/-- The driver loop over all components, in insertion order. -/
def tarjanFold (net : ContractNetwork) : List String → TarjanSt → TarjanSt
  | [], st => st
  | v :: vs, st =>
    let st' :=
      if (alGet st.indexMap v).isNone then
        strongconnect net (net.components.length + 1) v st
      else st
    tarjanFold net vs st'

/-- The boolean ordering on SCCs used for the final sort: larger SCCs
first, ties broken by the lexicographically least member. -/
def sccOrd (a b : List String) : Bool :=
  decide (b.length < a.length) ||
    (a.length == b.length && strLeB (a.headD "") (b.headD ""))

/-- ContractNetwork.find_strongly_connected_components. -/
def find_strongly_connected_components (net : ContractNetwork) : List (List String) :=
  let st := tarjanFold net net.names ⟨0, [], [], [], [], []⟩
  sortLe sccOrd st.sccs

/-- ContractNetwork.find_cycles: the SCCs of size at least two. -/
def find_cycles (net : ContractNetwork) : List (List String) :=
  (find_strongly_connected_components net).filter (fun scc => decide (2 ≤ scc.length))

/-- ContractNetwork.has_cycle. -/
def has_cycle (net : ContractNetwork) : Bool :=
  (find_strongly_connected_components net).any (fun scc => decide (2 ≤ scc.length))

/-- The edge relation of the network graph: w is a consumer of v. -/
def edgeRel (net : ContractNetwork) (v w : String) : Prop :=
  w ∈ net.get_consumers v

/-- A well-formedness violation, modelled structurally: either a missing
contract for an interface endpoint, or a supplier guarantee not contained in
the consumer assumption on the interface variables (the source formats these
as strings; the data content is the same). -/
inductive Violation where
  | missingContract (supplier consumer : String)
  | notContained (supplier consumer : String) (vars : List String)
deriving DecidableEq

/-- WellFormednessChecker.check: walk every interface, skip interfaces with
unknown components, record a violation when an endpoint has no contract or
when the projected supplier guarantee is not a subset of the projected
consumer assumption.  Returns (passed, violations). -/
def wellFormednessCheck (net : ContractNetwork) (contracts : List (String × Contract)) :
    Bool × List Violation :=
  let violations := net.interfaces.foldl (fun acc iface =>
    match net.get_component iface.supplier, net.get_component iface.consumer with
    | some _, some _ =>
      match alGet contracts iface.supplier, alGet contracts iface.consumer with
      | some sc, some cc =>
        let gProj := sc.project_guarantees iface.vars
        let aProj := cc.project_assumptions iface.vars
        if gProj.subset_of aProj then acc
        else acc ++ [Violation.notContained iface.supplier iface.consumer iface.vars]
      | _, _ => acc ++ [Violation.missingContract iface.supplier iface.consumer]
    | _, _ => acc) []
  (violations.isEmpty, violations)

/-- The MILP transformer failure (MILPTransformFailure): the diagnostic
payload carried by a failed post/pre optimization.  The PuLP problem object
of the source is presentation-only and not modelled. -/
structure MILPTransformFailure where
  component_name : String
  transformer_type : String
  variable_being_optimized : String
  optimization_direction : String
  solver_status : Int
  solver_status_name : String
  solver_name : String
  input_region : List (String × ℚ × ℚ)
  output_region : List (String × ℚ × ℚ)
  iteration_number : Option Nat
  edge_context : Option (String × String × List String)
deriving DecidableEq

/-- A post or pre transformer: may fail with a MILP transform failure. -/
def Transformer : Type := BehaviorSet → Except MILPTransformFailure BehaviorSet

/-- The evolution operator's enrichment of a failure with edge context when
absent. -/
def enrichEdge (e : MILPTransformFailure) (s c : String) (vs : List String) :
    MILPTransformFailure :=
  if e.edge_context.isNone then { e with edge_context := some (s, c, vs) } else e

/-- One forward-propagation step of the evolution operator on a single
interface: supplier guarantee relaxation projected onto the interface
becomes consumer assumption relaxation; the consumer's post transformer, if
registered, produces a guarantee relaxation projected onto the consumer's
outputs.  Reads the supplier deviation from the iteration-start map. -/
def forwardStep (net : ContractNetwork) (posts : List (String × Transformer))
    (delta : DeviationMap) (iface : Interface) (acc : DeviationMap × Nat) :
    Except MILPTransformFailure (DeviationMap × Nat) :=
  let sdev := delta.get_deviation iface.supplier
  if sdev.guarantee_relaxation.isEmptyB then .ok acc
  else
    let proj := sdev.guarantee_relaxation.project iface.vars
    if proj.isEmptyB then .ok acc
    else
      let nd := acc.1.update_deviation iface.consumer
        { Deviation.emptyDev with assumption_relaxation := proj }
      let cnt := acc.2 + 1
      match alGet posts iface.consumer with
      | none => .ok (nd, cnt)
      | some post =>
        match post proj with
        | .error e => .error (enrichEdge e iface.supplier iface.consumer iface.vars)
        | .ok res =>
          if res.isEmptyB then .ok (nd, cnt)
          else
            match net.get_component iface.consumer with
            | none => .ok (nd, cnt)
            | some comp =>
              let nd2 := nd.update_deviation iface.consumer
                { Deviation.emptyDev with guarantee_relaxation := res.project comp.outputs }
              .ok (nd2, cnt + 1)

/-- The forward pass over the interface list. -/
def forwardPass (net : ContractNetwork) (posts : List (String × Transformer))
    (delta : DeviationMap) : List Interface → (DeviationMap × Nat) →
    Except MILPTransformFailure (DeviationMap × Nat)
  | [], acc => .ok acc
  | iface :: rest, acc =>
    match forwardStep net posts delta iface acc with
    | .error e => .error e
    | .ok acc' => forwardPass net posts delta rest acc'

/-- One backward-propagation step on a single interface: consumer assumption
strengthening projected onto the interface becomes supplier guarantee
strengthening; the supplier's pre transformer, if registered, produces an
assumption strengthening projected onto the supplier's inputs. -/
def backwardStep (net : ContractNetwork) (pres : List (String × Transformer))
    (delta : DeviationMap) (iface : Interface) (acc : DeviationMap × Nat) :
    Except MILPTransformFailure (DeviationMap × Nat) :=
  let cdev := delta.get_deviation iface.consumer
  if cdev.assumption_strengthening.isEmptyB then .ok acc
  else
    let proj := cdev.assumption_strengthening.project iface.vars
    if proj.isEmptyB then .ok acc
    else
      let nd := acc.1.update_deviation iface.supplier
        { Deviation.emptyDev with guarantee_strengthening := proj }
      let cnt := acc.2 + 1
      match alGet pres iface.supplier with
      | none => .ok (nd, cnt)
      | some pre =>
        match pre proj with
        | .error e => .error (enrichEdge e iface.supplier iface.consumer iface.vars)
        | .ok res =>
          if res.isEmptyB then .ok (nd, cnt)
          else
            match net.get_component iface.supplier with
            | none => .ok (nd, cnt)
            | some comp =>
              let nd2 := nd.update_deviation iface.supplier
                { Deviation.emptyDev with assumption_strengthening := res.project comp.inputs }
              .ok (nd2, cnt + 1)

/-- The backward pass over the interface list. -/
def backwardPass (net : ContractNetwork) (pres : List (String × Transformer))
    (delta : DeviationMap) : List Interface → (DeviationMap × Nat) →
    Except MILPTransformFailure (DeviationMap × Nat)
  | [], acc => .ok acc
  | iface :: rest, acc =>
    match backwardStep net pres delta iface acc with
    | .error e => .error e
    | .ok acc' => backwardPass net pres delta rest acc'

/-- EvolutionOperator.apply: copy the input map, run the forward pass over
all interfaces and then the backward pass, reading deviations from the
iteration-start map; return the new map and the propagation count, or the
first transformer failure. -/
def applyPhi (net : ContractNetwork) (posts pres : List (String × Transformer))
    (delta : DeviationMap) : Except MILPTransformFailure (DeviationMap × Nat) :=
  match forwardPass net posts delta net.interfaces (delta.copy, 0) with
  | .error e => .error e
  | .ok acc => backwardPass net pres delta net.interfaces acc

/-- A Python exception surfaced by the fixpoint engine: an AttributeError
raised by an access to a missing attribute (the attribute name is recorded),
or a propagated MILP transform failure. -/
inductive PyErr where
  | attributeError (attr : String)
  | transform (e : MILPTransformFailure)
deriving DecidableEq

/-- BehaviorSet.volume: the fixpoint engine calls this method
(evolution.py lines 171-172 and 271-274), but BehaviorSet defines no volume
attribute (only total_volume_estimate, behavior.py line 293), so every call
raises AttributeError naming the missing attribute.  Modelled as an
always-failing attribute access. -/
def BehaviorSet.volume (_bs : BehaviorSet) : Except PyErr ℚ :=
  Except.error (PyErr.attributeError "volume")

/-- FixpointEngine._calculate_baseline_volumes: for every component in
insertion order, the volume of the baseline assumptions and then of the
baseline guarantees.  The first BehaviorSet.volume call raises, so this
fails with AttributeError on any network with at least one component. -/
def calculateBaselineVolumes : List (String × ComponentNode) →
    Except PyErr (List (String × ℚ × ℚ))
  | [] => Except.ok []
  | (name, node) :: rest =>
    match node.baseline_contract.assumptions.volume with
    | Except.error e => Except.error e
    | Except.ok va =>
      match node.baseline_contract.guarantees.volume with
      | Except.error e => Except.error e
      | Except.ok vg =>
        match calculateBaselineVolumes rest with
        | Except.error e => Except.error e
        | Except.ok vs => Except.ok ((name, va, vg) :: vs)

/-- The per-delta-type accumulation loop of FixpointEngine._compute_metrics:
for every component in insertion order it calls BehaviorSet.volume on the
four deviation sets, so it raises AttributeError at the first component. -/
def perTypeVolumes (delta : DeviationMap) : List (String × ComponentNode) →
    Except PyErr (ℚ × ℚ × ℚ × ℚ)
  | [] => Except.ok (0, 0, 0, 0)
  | (name, _) :: rest =>
    match (delta.get_deviation name).assumption_relaxation.volume with
    | Except.error e => Except.error e
    | Except.ok a1 =>
      match (delta.get_deviation name).assumption_strengthening.volume with
      | Except.error e => Except.error e
      | Except.ok a2 =>
        match (delta.get_deviation name).guarantee_relaxation.volume with
        | Except.error e => Except.error e
        | Except.ok g1 =>
          match (delta.get_deviation name).guarantee_strengthening.volume with
          | Except.error e => Except.error e
          | Except.ok g2 =>
            match perTypeVolumes delta rest with
            | Except.error e => Except.error e
            | Except.ok (b1, b2, b3, b4) =>
              Except.ok (qadd a1 b1, qadd a2 b2, qadd g1 b3, qadd g2 b4)

/-- The per-iteration metrics retained by the fixpoint engine that are not
presentation-only (wall time and the relative-volume post-processing are
omitted; the volume calls that precede them are modelled, and crash). -/
structure IterMetrics where
  iteration : Nat
  total_magnitude : Nat
  num_propagations : Nat
  converged : Bool
deriving DecidableEq

/-- FixpointEngine._compute_metrics: the per-component magnitudes are
computed first (successfully), then the per-delta-type volume loop runs,
which raises AttributeError whenever the network has a component; the
convergence flag starts false and the run loop may set it afterwards. -/
def computeMetrics (net : ContractNetwork) (iteration : Nat) (delta : DeviationMap)
    (nprop : Nat) : Except PyErr IterMetrics :=
  let _perComp := net.components.map (fun p => (p.1, (delta.get_deviation p.1).total_magnitude))
  match perTypeVolumes delta net.components with
  | Except.error e => Except.error e
  | Except.ok _ => Except.ok ⟨iteration, delta.total_magnitude, nprop, false⟩

/-- The iteration loop of FixpointEngine.run.  The first argument is the
number of remaining iterations (max_iterations plus one minus the current
iteration number); on a transformer failure the current iteration number is
attached when absent and the failure is re-raised; after a successful
evolution step the engine computes metrics (whose per-delta-type volume loop
raises AttributeError before the convergence check whenever the network has
a component); on structural equality of consecutive maps the engine stops,
marking the iteration converged and returning the previous map. -/
def fixpointRunAux (net : ContractNetwork) (posts pres : List (String × Transformer)) :
    Nat → Nat → DeviationMap → List IterMetrics →
    Except PyErr (DeviationMap × List IterMetrics)
  | 0, _, current, acc => .ok (current, acc)
  | remaining + 1, iter, current, acc =>
    match applyPhi net posts pres current with
    | .error e =>
      .error (.transform
        (if e.iteration_number.isNone then { e with iteration_number := some iter } else e))
    | .ok (next, nprop) =>
      match computeMetrics net iter next nprop with
      | .error err => .error err
      | .ok m0 =>
        let conv := DeviationMap.eqM next current
        let m : IterMetrics := { m0 with converged := conv }
        if conv then .ok (current, acc ++ [m])
        else fixpointRunAux net posts pres remaining (iter + 1) next (acc ++ [m])

/-- FixpointEngine construction followed by run: __init__ computes the
baseline contract volumes through BehaviorSet.volume, which raises
AttributeError on any network with at least one component before run
starts; otherwise run iterates the evolution operator from a copy of the
initial deviation map for at most max_iterations iterations. -/
def fixpointRun (net : ContractNetwork) (posts pres : List (String × Transformer))
    (maxIterations : Nat) (initial : DeviationMap) :
    Except PyErr (DeviationMap × List IterMetrics) :=
  match calculateBaselineVolumes net.components with
  | Except.error e => Except.error e
  | Except.ok _ => fixpointRunAux net posts pres maxIterations 1 initial.copy []

/-- The converged flag of the first recorded iteration of a fixpoint run,
when the run succeeded and performed at least one iteration. -/
def firstIterConverged (r : Except PyErr (DeviationMap × List IterMetrics)) :
    Option Bool :=
  match r with
  | .ok (_, m :: _) => some m.converged
  | _ => none

/-- A behavior set whose regions are all non-empty (the invariant the
constructor establishes whenever cache management is not triggered). -/
@[reducible] def CleanSet (s : BehaviorSet) : Prop := ∀ r ∈ s.regions, r.is_empty = false

/-- A deviation all four of whose behavior sets are clean. -/
@[reducible] def CleanDev (d : Deviation) : Prop :=
  CleanSet d.assumption_relaxation ∧ CleanSet d.assumption_strengthening ∧
  CleanSet d.guarantee_relaxation ∧ CleanSet d.guarantee_strengthening

/-- The componentwise unions of two deviations stay within the region cap. -/
@[reducible] def FitsUnion (d e : Deviation) : Prop :=
  d.assumption_relaxation.regions.length + e.assumption_relaxation.regions.length
      ≤ MAX_ZONOTOPES_PER_SET ∧
  d.assumption_strengthening.regions.length + e.assumption_strengthening.regions.length
      ≤ MAX_ZONOTOPES_PER_SET ∧
  d.guarantee_relaxation.regions.length + e.guarantee_relaxation.regions.length
      ≤ MAX_ZONOTOPES_PER_SET ∧
  d.guarantee_strengthening.regions.length + e.guarantee_strengthening.regions.length
      ≤ MAX_ZONOTOPES_PER_SET

/-- Magnitude of an optional deviation (absent means zero). -/
def optMagD : Option Deviation → Nat
  | none => 0
  | some d => d.total_magnitude

/-- The baseline contract of the C1 polarity test: guarantee y in [0, 20]. -/
def baseC1 : Contract :=
  ⟨BehaviorSet.empty, BehaviorSet.ofRegions [mkRegion [("y", 0, 20)]]⟩

/-- The C1 deviation: guarantee strengthening y in [10, 20], all else empty. -/
def devC1 : Deviation :=
  { Deviation.emptyDev with
    guarantee_strengthening := BehaviorSet.ofRegions [mkRegion [("y", 10, 20)]] }

/-- A region thin on the y axis built from an explicit zonotope: its single
generator column (1, 6e-13) survives the constructor's norm test while the
y extent 1.2e-12 is just above the emptiness tolerance. -/
def thinReg : ZonotopeRegion :=
  ZonotopeRegion.from_zonotope ["x", "y"]
    (Zonotope.make [0, 0] [[1, mkRat 3 5000000000000]])

/-- The unit box on x and y. -/
def unitXY : ZonotopeRegion := mkRegion [("x", 0, 1), ("y", 0, 1)]

/-- Twenty-one non-empty regions whose first merged pair has an empty
bounding-box hull: merging the two thin regions rebuilds the hull through
from_box, whose y column (norm 6e-13) is then removed as near-zero. -/
def badList : List ZonotopeRegion := thinReg :: thinReg :: List.replicate 19 unitXY

/-- The behavior set built from badList: cache management runs after the
empty-region filter, so the empty merged region stays in the set. -/
def badSet : BehaviorSet := BehaviorSet.ofRegions badList

/-- A single unit box on x, as a one-region behavior set. -/
def oneBoxSet : BehaviorSet := BehaviorSet.ofRegions [mkRegion [("x", 0, 1)]]

/-- Twenty disjoint unit boxes on x. -/
def twentyBoxes : List ZonotopeRegion :=
  (List.range 20).map (fun i => mkRegion [("x", mkRat i 1, mkRat (i + 1) 1)])

/-- A deviation holding the twenty boxes as assumption relaxation. -/
def dev20 : Deviation :=
  { Deviation.emptyDev with assumption_relaxation := BehaviorSet.ofRegions twentyBoxes }

/-- A deviation map at the cap: one component with twenty regions. -/
def map20 : DeviationMap := ⟨[("a", dev20)]⟩

/-- A one-region deviation pushing map20 over the cap. -/
def devPlus1 : Deviation :=
  { Deviation.emptyDev with
    assumption_relaxation := BehaviorSet.ofRegions [mkRegion [("x", 100, 101)]] }

/-- A small deviation map for the C4 witness. -/
def mapW : DeviationMap := ⟨[("a", devPlus1)]⟩

/-- A second one-region deviation for the C4 witness. -/
def devW : Deviation :=
  { Deviation.emptyDev with
    assumption_relaxation := BehaviorSet.ofRegions [mkRegion [("x", 200, 201)]] }

/-- The degenerate point region y = 15 (lower bound equal to upper bound). -/
def pointReg : ZonotopeRegion := mkRegion [("y", 15, 15)]

/-- The guarantee behavior set y in [0, 10]. -/
def bsY010 : BehaviorSet := BehaviorSet.ofRegions [mkRegion [("y", 0, 10)]]

/-- The deviation behavior set y in [10, 20]. -/
def bsY1020 : BehaviorSet := BehaviorSet.ofRegions [mkRegion [("y", 10, 20)]]

/-- Component A of the two-node chain: supplies y. -/
def nodeA : ComponentNode := ⟨"A", [], ["y"], ⟨BehaviorSet.empty, bsY010⟩⟩

/-- Component B of the two-node chain: consumes and re-emits y. -/
def nodeB : ComponentNode := ⟨"B", ["y"], ["y"], ⟨bsY010, bsY010⟩⟩

/-- The acyclic two-node network A to B on shared variable y. -/
def netC3 : ContractNetwork := ⟨[("A", nodeA), ("B", nodeB)], [⟨"A", "B", ["y"]⟩]⟩

/-- The identity-like post transformer for B. -/
def postsC3 : List (String × Transformer) := [("B", fun bs => .ok bs)]

/-- No pre transformers in the two-node scenario. -/
def presC3 : List (String × Transformer) := []

/-- The initial deviation: guarantee relaxation y in [10, 20] on A. -/
def initC3 : DeviationMap :=
  ⟨[("A", { Deviation.emptyDev with guarantee_relaxation := bsY1020 })]⟩

/-- The deviation map produced by the first evolution step of the two-node
scenario. -/
def phiOutC3 : DeviationMap :=
  match applyPhi netC3 postsC3 presC3 initC3.copy with
  | .ok p => p.1
  | .error _ => initC3

/-- The propagation count of the first evolution step of the two-node
scenario. -/
def phiCntC3 : Nat :=
  match applyPhi netC3 postsC3 presC3 initC3.copy with
  | .ok p => p.2
  | .error _ => 0

/-- Supplier component for the well-formedness test. -/
def nodeS : ComponentNode := ⟨"S", [], ["x"], ⟨BehaviorSet.empty, BehaviorSet.empty⟩⟩

/-- Consumer component for the well-formedness test. -/
def nodeCc : ComponentNode := ⟨"C", ["x"], ["z"], ⟨BehaviorSet.empty, BehaviorSet.empty⟩⟩

/-- The single-interface network S to C on x. -/
def netC5 : ContractNetwork := ⟨[("S", nodeS), ("C", nodeCc)], [⟨"S", "C", ["x"]⟩]⟩

/-- The behavior set x in [5, 15]. -/
def bsX515 : BehaviorSet := BehaviorSet.ofRegions [mkRegion [("x", 5, 15)]]

/-- The behavior set x in [0, 20]. -/
def bsX020 : BehaviorSet := BehaviorSet.ofRegions [mkRegion [("x", 0, 20)]]

/-- Contracts for the passing case: guarantee [5, 15] against assumption
[0, 20]. -/
def contractsC5pass : List (String × Contract) :=
  [("S", ⟨BehaviorSet.empty, bsX515⟩), ("C", ⟨bsX020, BehaviorSet.empty⟩)]

/-- Contracts for the failing case: guarantee [0, 20] against assumption
[5, 15]. -/
def contractsC5fail : List (String × Contract) :=
  [("S", ⟨BehaviorSet.empty, bsX020⟩), ("C", ⟨bsX515, BehaviorSet.empty⟩)]

/-- An empty contract used for graph-only networks. -/
def dummyContract : Contract := ⟨BehaviorSet.empty, BehaviorSet.empty⟩

/-- A graph-only component node. -/
def mkNode (n : String) : ComponentNode := ⟨n, ["in"], ["out"], dummyContract⟩

/-- The three-node cycle A to B to C to A. -/
def triangleNet : ContractNetwork :=
  ⟨[("A", mkNode "A"), ("B", mkNode "B"), ("C", mkNode "C")],
   [⟨"A", "B", ["out"]⟩, ⟨"B", "C", ["out"]⟩, ⟨"C", "A", ["out"]⟩]⟩

/-- A two-node acyclic graph used as the C6 witness instance. -/
def dagNet2 : ContractNetwork :=
  ⟨[("A", mkNode "A"), ("B", mkNode "B")], [⟨"A", "B", ["out"]⟩]⟩

/-- Every registered transformer fails with the given failure on every
input. -/
@[reducible] def AllFail (ts : List (String × Transformer)) (e0 : MILPTransformFailure) : Prop :=
  ∀ name f, alGet ts name = some f → ∀ bs, f bs = Except.error e0

/-- Every registered transformer succeeds on every input. -/
@[reducible] def AllOk (ts : List (String × Transformer)) : Prop :=
  ∀ name f, alGet ts name = some f → ∀ bs, ∃ out, f bs = Except.ok out

/-- The forward pass reaches a post-transformer call on this interface of
the network, for the given start-of-iteration deviation map. -/
@[reducible] def TriggersForward (net : ContractNetwork) (posts : List (String × Transformer))
    (delta : DeviationMap) (iface : Interface) : Prop :=
  iface ∈ net.interfaces ∧
  (delta.get_deviation iface.supplier).guarantee_relaxation.isEmptyB = false ∧
  ((delta.get_deviation iface.supplier).guarantee_relaxation.project iface.vars).isEmptyB
      = false ∧
  (alGet posts iface.consumer).isSome

/-- The backward pass reaches a pre-transformer call on this interface of
the network, for the given start-of-iteration deviation map. -/
@[reducible] def TriggersBackward (net : ContractNetwork) (pres : List (String × Transformer))
    (delta : DeviationMap) (iface : Interface) : Prop :=
  iface ∈ net.interfaces ∧
  (delta.get_deviation iface.consumer).assumption_strengthening.isEmptyB = false ∧
  ((delta.get_deviation iface.consumer).assumption_strengthening.project iface.vars).isEmptyB
      = false ∧
  (alGet pres iface.supplier).isSome

/-- The concrete always-infeasible failure used as the C7 witness: no
iteration number and no edge context attached yet. -/
def e0c : MILPTransformFailure :=
  ⟨"B", "post", "y", "minimize", 1, "Infeasible", "PULP_CBC_CMD",
   [("y", 10, 20)], [], none, none⟩

/-- The always-failing post transformer map of the C7 witness. -/
def postsC7 : List (String × Transformer) := [("B", fun _ => .error e0c)]

/-- Keys of an association list. -/
def keysOf {α : Type} (l : List (String × α)) : List String := l.map (fun p => p.1)

/-- The network graph is acyclic: no node reaches itself through one or
more consumer edges. -/
def Acyclic (net : ContractNetwork) : Prop :=
  ∀ v, ¬ Relation.TransGen (edgeRel net) v v

/-- Interface consumers name existing components (enforced by
add_interface in the source). -/
def NetWF (net : ContractNetwork) : Prop :=
  ∀ iface ∈ net.interfaces, iface.consumer ∈ net.names

/-- The state invariant of the Tarjan machine: the on-stack flags agree
with stack membership, stack nodes are indexed, index keys are distinct
component names, and index values are below the counter. -/
def TarjanInv (net : ContractNetwork) (st : TarjanSt) : Prop :=
  (∀ u, lookupBool st.onStack u = true ↔ u ∈ st.stack) ∧
  (∀ u ∈ st.stack, (alGet st.indexMap u).isSome = true) ∧
  (keysOf st.indexMap).Nodup ∧
  (∀ k ∈ keysOf st.indexMap, k ∈ net.names) ∧
  (∀ p ∈ st.indexMap, p.2 < st.counter)

/-- The inductive specification of strongconnect on an acyclic network:
called on an unindexed node with enough fuel, it restores the stack,
extends the index, assigns the node index and lowlink equal to the entry
counter, preserves previously indexed nodes, and emits only singleton
SCCs. -/
def SCspec (net : ContractNetwork) (fuel : Nat) : Prop :=
  ∀ (v : String) (st : TarjanSt),
    TarjanInv net st →
    alGet st.indexMap v = none →
    v ∈ net.names →
    (∀ u ∈ st.stack, Relation.ReflTransGen (edgeRel net) u v) →
    net.names.length + 1 ≤ fuel + st.indexMap.length →
    TarjanInv net (strongconnect net fuel v st) ∧
    (strongconnect net fuel v st).stack = st.stack ∧
    st.counter < (strongconnect net fuel v st).counter ∧
    (∃ ext, (strongconnect net fuel v st).indexMap = st.indexMap ++ ext ∧ 1 ≤ ext.length) ∧
    alGet (strongconnect net fuel v st).indexMap v = some st.counter ∧
    alGet (strongconnect net fuel v st).lowlink v = some st.counter ∧
    (∀ u, (alGet st.indexMap u).isSome = true →
      alGet (strongconnect net fuel v st).indexMap u = alGet st.indexMap u ∧
      alGet (strongconnect net fuel v st).lowlink u = alGet st.lowlink u) ∧
    (∃ news, (strongconnect net fuel v st).sccs = st.sccs ++ news ∧
      ∀ l ∈ news, l.length = 1)

/-- The inductive specification of the successor loop on an acyclic
network: the current node keeps lowlink equal to its own index, the stack
is restored, previously indexed nodes are preserved, and only singleton
SCCs are emitted. -/
def PSspec (net : ContractNetwork) (fuel : Nat) : Prop :=
  ∀ (ws : List String) (v : String) (iv : Nat) (st : TarjanSt),
    TarjanInv net st →
    (∀ w ∈ ws, edgeRel net v w) →
    (∀ w ∈ ws, w ∈ net.names) →
    alGet st.indexMap v = some iv →
    alGet st.lowlink v = some iv →
    iv < st.counter →
    (∀ u ∈ st.stack, Relation.ReflTransGen (edgeRel net) u v) →
    net.names.length + 1 ≤ fuel + st.indexMap.length →
    TarjanInv net (processSucc net fuel v ws st) ∧
    (processSucc net fuel v ws st).stack = st.stack ∧
    st.counter ≤ (processSucc net fuel v ws st).counter ∧
    (∃ ext, (processSucc net fuel v ws st).indexMap = st.indexMap ++ ext) ∧
    alGet (processSucc net fuel v ws st).indexMap v = some iv ∧
    alGet (processSucc net fuel v ws st).lowlink v = some iv ∧
    (∀ u, u ≠ v → (alGet st.indexMap u).isSome = true →
      alGet (processSucc net fuel v ws st).indexMap u = alGet st.indexMap u ∧
      alGet (processSucc net fuel v ws st).lowlink u = alGet st.lowlink u) ∧
    (∃ news, (processSucc net fuel v ws st).sccs = st.sccs ++ news ∧
      ∀ l ∈ news, l.length = 1)

theorem mergePass_length_le : ∀ l : List ZonotopeRegion, (mergePass l).length ≤ l.length
  | [] => by simp [mergePass]
  | [r] => by simp [mergePass]
  | r1 :: r2 :: rest => by
    by_cases h : sameVarSet r1.vars r2.vars
    · have ih := mergePass_length_le rest
      simp only [mergePass, h, if_true, List.length_cons]
      omega
    · have ih := mergePass_length_le (r2 :: rest)
      simp only [mergePass, h, if_false, List.length_cons, Bool.false_eq_true] at ih ⊢
      omega

theorem acm_length_le (l : List ZonotopeRegion) :
    (applyCacheManagement l).length ≤ MAX_ZONOTOPES_PER_SET := by
  unfold applyCacheManagement
  split
  · assumption
  · dsimp only
    split
    · simp [List.length_take]
    · omega

theorem ofRegions_length_le (rs : List ZonotopeRegion) :
    (BehaviorSet.ofRegions rs).regions.length ≤ MAX_ZONOTOPES_PER_SET := by
  unfold BehaviorSet.ofRegions
  dsimp only
  split
  · exact acm_length_le _
  · omega

theorem union_length_le (s t : BehaviorSet) :
    (s.union t).regions.length ≤ MAX_ZONOTOPES_PER_SET := by
  unfold BehaviorSet.union
  split
  · exact ofRegions_length_le _
  · split
    · exact ofRegions_length_le _
    · exact ofRegions_length_le _

theorem difference_length_le (s t : BehaviorSet) :
    (s.difference t).regions.length ≤ MAX_ZONOTOPES_PER_SET := by
  unfold BehaviorSet.difference
  split
  · exact ofRegions_length_le _
  · exact ofRegions_length_le _

/-- C2: every behavior set produced by union, by difference, or by the
cache-management merge policy has at most MAX_ZONOTOPES_PER_SET (20)
regions. -/
theorem C2_region_cap :
    MAX_ZONOTOPES_PER_SET = 20 ∧
    (∀ s t : BehaviorSet, (s.union t).regions.length ≤ MAX_ZONOTOPES_PER_SET) ∧
    (∀ s t : BehaviorSet, (s.difference t).regions.length ≤ MAX_ZONOTOPES_PER_SET) ∧
    (∀ rs : List ZonotopeRegion,
      (applyCacheManagement rs).length ≤ MAX_ZONOTOPES_PER_SET) :=
  ⟨rfl, union_length_le, difference_length_le, acm_length_le⟩

theorem ofRegions_of_clean (rs : List ZonotopeRegion)
    (h : ∀ r ∈ rs, r.is_empty = false) (hl : rs.length ≤ MAX_ZONOTOPES_PER_SET) :
    BehaviorSet.ofRegions rs = ⟨rs⟩ := by
  unfold BehaviorSet.ofRegions
  have hf : rs.filter (fun r => !r.is_empty) = rs := by
    apply List.filter_eq_self.mpr
    intro a ha
    simp [h a ha]
  simp only [hf]
  rw [if_neg (by omega)]

theorem empty_isEmptyB : BehaviorSet.empty.isEmptyB = true := rfl

/-- Amended C8: for every behavior set whose regions are all non-empty and
within the cap (the invariant of every set built without triggering cache
management), union with the empty set and difference with the empty set
return the set itself. -/
theorem C8_identity_on_clean_sets (s : BehaviorSet)
    (hclean : CleanSet s) (hlen : s.regions.length ≤ MAX_ZONOTOPES_PER_SET) :
    s.union BehaviorSet.empty = s ∧ s.difference BehaviorSet.empty = s := by
  have hmk : BehaviorSet.ofRegions s.regions = s := by
    rw [ofRegions_of_clean s.regions hclean hlen]
  constructor
  · unfold BehaviorSet.union
    rw [if_pos (by simp [empty_isEmptyB])]
    exact hmk
  · unfold BehaviorSet.difference
    rw [if_pos (by simp [empty_isEmptyB])]
    exact hmk

/-- Witness for C8 at a concrete one-region set. -/
theorem C8_identity_witness :
    CleanSet oneBoxSet ∧ oneBoxSet.regions.length ≤ MAX_ZONOTOPES_PER_SET ∧
    (oneBoxSet.union BehaviorSet.empty = oneBoxSet ∧
     oneBoxSet.difference BehaviorSet.empty = oneBoxSet) :=
  ⟨by decide, by decide, C8_identity_on_clean_sets oneBoxSet (by decide) (by decide)⟩

/-- Counterexample to C8 as stated: badSet is a behavior set (built by the
BehaviorSet constructor from 21 non-empty regions) for which union and
difference with the empty set do not return an equal set: the constructor
re-filters and drops the empty region that cache management created. -/
theorem C8_cex_empty_not_identity :
    ¬(badSet.union BehaviorSet.empty = badSet ∧
      badSet.difference BehaviorSet.empty = badSet) := by
  decide

/-- Amended C9: every behavior set whose construction does not trigger
cache management (at most 20 regions remain after filtering) contains only
non-empty regions. -/
theorem C9_constructor_filters_empty (rs : List ZonotopeRegion)
    (h : (rs.filter (fun r => !r.is_empty)).length ≤ MAX_ZONOTOPES_PER_SET) :
    ∀ r ∈ (BehaviorSet.ofRegions rs).regions, r.is_empty = false := by
  intro r hr
  unfold BehaviorSet.ofRegions at hr
  dsimp only at hr
  rw [if_neg (by omega)] at hr
  have := List.of_mem_filter hr
  simpa using this

/-- Witness for C9 at a concrete two-region list with one degenerate
region. -/
theorem C9_constructor_witness :
    ((([mkRegion [("x", 0, 1)], pointReg] : List ZonotopeRegion).filter
        (fun r => !r.is_empty)).length ≤ MAX_ZONOTOPES_PER_SET) ∧
    ∀ r ∈ (BehaviorSet.ofRegions [mkRegion [("x", 0, 1)], pointReg]).regions,
      r.is_empty = false :=
  ⟨by decide, C9_constructor_filters_empty _ (by decide)⟩

/-- Counterexample to C9 as stated: badSet, produced directly by the
BehaviorSet constructor, contains an empty region (the hull of the two thin
regions collapses because its y generator column is removed as near-zero,
and filtering happened before the merge). -/
theorem C9_cex_empty_region_survives :
    (BehaviorSet.ofRegions badList).regions.any (fun r => r.is_empty) = true := by
  decide

theorem qadd_eq_add (a b : ℚ) : qadd a b = a + b := (Rat.add_def' a b).symm

theorem qsub_eq_sub (a b : ℚ) : qsub a b = a - b := (Rat.sub_def' a b).symm

theorem qmul_eq_mul (a b : ℚ) : qmul a b = a * b := by
  unfold qmul
  rw [Rat.mul_def, Rat.normalize_eq_mkRat]

theorem qhalf_eq_half (a : ℚ) : qhalf a = a / 2 := by
  unfold qhalf
  rw [Rat.mkRat_eq_divInt, Rat.divInt_eq_div]
  push_cast
  rw [div_mul_eq_div_div]
  rw [Rat.num_div_den]

theorem qabs_eq_abs (a : ℚ) : qabs a = |a| := by
  unfold qabs
  split
  · rw [abs_of_neg (by assumption)]
  · rw [abs_of_nonneg (le_of_not_lt (by assumption))]

theorem qsum_eq_sum (l : List ℚ) : qsum l = l.sum := by
  induction l with
  | nil => rfl
  | cons a t ih =>
    unfold qsum at ih ⊢
    simp [List.foldr_cons, ih, qadd_eq_add]

theorem isEmptyB_iff_nil (s : BehaviorSet) : s.isEmptyB = true ↔ s.regions = [] := by
  unfold BehaviorSet.isEmptyB
  exact List.isEmpty_iff

theorem union_length_ge (a b : BehaviorSet) (ha : CleanSet a) (hb : CleanSet b)
    (hfit : a.regions.length + b.regions.length ≤ MAX_ZONOTOPES_PER_SET) :
    a.regions.length ≤ (a.union b).regions.length := by
  unfold BehaviorSet.union
  by_cases h2 : b.isEmptyB
  · rw [if_pos h2, ofRegions_of_clean _ ha (by omega)]
  · rw [if_neg h2]
    by_cases h1 : a.isEmptyB
    · rw [if_pos h1]
      have : a.regions = [] := (isEmptyB_iff_nil a).mp h1
      simp [this]
    · rw [if_neg h1]
      dsimp only
      have hlen : (a.regions ++ b.regions).length ≤ MAX_ZONOTOPES_PER_SET := by
        simp only [List.length_append]; omega
      rw [if_neg (by omega)]
      rw [ofRegions_of_clean _ ?hcl (by simpa using hlen)]
      · simp
      case hcl =>
        intro r hr
        rcases List.mem_append.mp hr with h | h
        · exact ha r h
        · exact hb r h

theorem union_with_magnitude_ge (d e : Deviation) (hd : CleanDev d) (he : CleanDev e)
    (hfit : FitsUnion d e) :
    d.total_magnitude ≤ (d.union_with e).total_magnitude := by
  unfold Deviation.union_with Deviation.total_magnitude
  have h1 := union_length_ge _ _ hd.1 he.1 hfit.1
  have h2 := union_length_ge _ _ hd.2.1 he.2.1 hfit.2.1
  have h3 := union_length_ge _ _ hd.2.2.1 he.2.2.1 hfit.2.2.1
  have h4 := union_length_ge _ _ hd.2.2.2 he.2.2.2 hfit.2.2.2
  dsimp only at h1 h2 h3 h4 ⊢
  omega

theorem sumMag_alSet (l : List (String × Deviation)) (c : String) (v : Deviation) :
    ((alSet l c v).map (fun p => p.2.total_magnitude)).sum + optMagD (alGet l c)
      = (l.map (fun p => p.2.total_magnitude)).sum + v.total_magnitude := by
  induction l with
  | nil => simp [alSet, alGet, optMagD]
  | cons hd tl ih =>
    obtain ⟨k, d⟩ := hd
    by_cases h : k = c
    · subst h
      simp [alSet, alGet, optMagD]
      omega
    · simp only [alSet, alGet, if_neg h, List.map_cons, List.sum_cons]
      omega

/-- Amended C4: for every deviation map, component and new deviation whose
behavior sets are all non-empty and whose componentwise unions stay within
the region cap, the total magnitude after update_deviation is at least the
total magnitude before.  (Without the cap proviso the update can shrink the
count: see the counterexample.) -/
theorem C4_update_magnitude_monotone (m : DeviationMap) (c : String) (d : Deviation)
    (hOld : CleanDev (m.get_deviation c)) (hNew : CleanDev d)
    (hfit : FitsUnion (m.get_deviation c) d) :
    m.total_magnitude ≤ (m.update_deviation c d).total_magnitude := by
  have hmag := union_with_magnitude_ge _ _ hOld hNew hfit
  unfold DeviationMap.update_deviation DeviationMap.set_deviation DeviationMap.total_magnitude
  dsimp only
  have hsum := sumMag_alSet m.devs c ((m.get_deviation c).union_with d)
  cases hg : alGet m.devs c with
  | none =>
    rw [hg] at hsum
    simp only [optMagD] at hsum
    omega
  | some d0 =>
    have hget : m.get_deviation c = d0 := by
      unfold DeviationMap.get_deviation
      rw [hg]
      rfl
    rw [hg] at hsum
    simp only [optMagD, ← hget] at hsum
    omega

/-- Witness for C4 at a concrete one-component map. -/
theorem C4_update_magnitude_witness :
    CleanDev (mapW.get_deviation "a") ∧ CleanDev devW ∧
    FitsUnion (mapW.get_deviation "a") devW ∧
    mapW.total_magnitude ≤ (mapW.update_deviation "a" devW).total_magnitude :=
  ⟨by decide, by decide, by decide,
   C4_update_magnitude_monotone mapW "a" devW (by decide) (by decide) (by decide)⟩

/-- Counterexample to C4 as stated: updating a component already at the
region cap triggers cache-management merging inside the union, and the total
magnitude strictly decreases (from 20 to 11). -/
theorem C4_cex_magnitude_decreases :
    (map20.update_deviation "a" devPlus1).total_magnitude < map20.total_magnitude := by
  decide

/-- C1: reconstruct_contract applies the reconstruction formula exactly:
assumptions (A0 union dA_rel) minus dA_str, guarantees (G0 union dG_rel)
minus dG_str; and on the concrete polarity instance with baseline guarantee
y in [0, 20], strengthening y in [10, 20] and no relaxation, the
reconstructed guarantee is a subset of the baseline guarantee (by the
conservative subset test) and does not contain the point y = 15. -/
theorem C1_reconstruction_polarity :
    (∀ (b : Contract) (d : Deviation),
      reconstruct_contract b d =
        ⟨(b.assumptions.union d.assumption_relaxation).difference
            d.assumption_strengthening,
         (b.guarantees.union d.guarantee_relaxation).difference
            d.guarantee_strengthening⟩) ∧
    devC1.guarantee_relaxation.isEmptyB = true ∧
    (reconstruct_contract baseC1 devC1).guarantees.subset_of baseC1.guarantees = true ∧
    (reconstruct_contract baseC1 devC1).guarantees.containsPoint [15] = false :=
  ⟨fun _ _ => rfl, by decide, by decide, by decide⟩

/-- C5: in the single-interface network S to C on x, the well-formedness
check passes with supplier guarantee x in [5, 15] against consumer
assumption x in [0, 20], and fails with exactly one violation naming that
interface when guarantee and assumption are reversed. -/
theorem C5_well_formedness_cases :
    (wellFormednessCheck netC5 contractsC5pass).1 = true ∧
    (wellFormednessCheck netC5 contractsC5pass).2 = [] ∧
    (wellFormednessCheck netC5 contractsC5fail).1 = false ∧
    (wellFormednessCheck netC5 contractsC5fail).2 =
      [Violation.notContained "S" "C" ["x"]] := by
  refine ⟨by decide, by decide, by decide, by decide⟩

/-- C10: a region whose bounding box has an axis of extent at most zero is
empty; in particular the single point y = 15 (lower bound equal to upper
bound) is empty and is silently dropped by the BehaviorSet constructor, so
a behavior set whose only region is that point is the empty behavior set. -/
theorem C10_degenerate_point_dropped :
    (∀ r : ZonotopeRegion,
      r.zonotope.to_box_bounds.any (fun b => decide (qsub b.2 b.1 ≤ 0)) = true →
      r.is_empty = true) ∧
    pointReg.is_empty = true ∧
    (BehaviorSet.ofRegions [pointReg]).regions = [] ∧
    (BehaviorSet.ofRegions [pointReg]).isEmptyB = true := by
  refine ⟨?_, by decide, by decide, by decide⟩
  intro r h
  unfold ZonotopeRegion.is_empty Zonotope.is_empty
  obtain ⟨b, hb, hle⟩ := List.any_eq_true.mp h
  refine Bool.or_eq_true _ _ |>.mpr (Or.inr ?_)
  apply List.any_eq_true.mpr
  refine ⟨b, hb, ?_⟩
  have h0 : qsub b.2 b.1 ≤ 0 := of_decide_eq_true hle
  have hpos : (0 : ℚ) < genTol := by decide
  exact decide_eq_true (lt_of_le_of_lt h0 hpos)

/-- Witness for the general part of C10 at the concrete point region. -/
theorem C10_degenerate_point_witness :
    pointReg.zonotope.to_box_bounds.any (fun b => decide (qsub b.2 b.1 ≤ 0)) = true ∧
    pointReg.is_empty = true :=
  ⟨by decide, C10_degenerate_point_dropped.1 pointReg (by decide)⟩

theorem alGet_mem {α : Type} (l : List (String × α)) (k : String) (v : α)
    (h : alGet l k = some v) : (k, v) ∈ l := by
  induction l with
  | nil => simp [alGet] at h
  | cons hd tl ih =>
    obtain ⟨k', v'⟩ := hd
    by_cases hk : k' = k
    · subst hk
      simp [alGet] at h
      subst h
      exact List.mem_cons_self _ _
    · simp only [alGet, if_neg hk] at h
      exact List.mem_cons_of_mem _ (ih h)

theorem forwardStep_ok (net : ContractNetwork) (posts : List (String × Transformer))
    (delta : DeviationMap) (iface : Interface) (acc : DeviationMap × Nat)
    (hp : AllOk posts) : ∃ q, forwardStep net posts delta iface acc = .ok q := by
  unfold forwardStep
  dsimp only
  split
  · exact ⟨acc, rfl⟩
  · split
    · exact ⟨acc, rfl⟩
    · cases hpost : alGet posts iface.consumer with
      | none => exact ⟨_, rfl⟩
      | some post =>
        obtain ⟨out, hout⟩ := hp iface.consumer post hpost
          ((delta.get_deviation iface.supplier).guarantee_relaxation.project iface.vars)
        simp only [hout]
        split
        · exact ⟨_, rfl⟩
        · cases hcomp : net.get_component iface.consumer with
          | none => exact ⟨_, rfl⟩
          | some comp => exact ⟨_, rfl⟩

theorem backwardStep_ok (net : ContractNetwork) (pres : List (String × Transformer))
    (delta : DeviationMap) (iface : Interface) (acc : DeviationMap × Nat)
    (hp : AllOk pres) : ∃ q, backwardStep net pres delta iface acc = .ok q := by
  unfold backwardStep
  dsimp only
  split
  · exact ⟨acc, rfl⟩
  · split
    · exact ⟨acc, rfl⟩
    · cases hpre : alGet pres iface.supplier with
      | none => exact ⟨_, rfl⟩
      | some pre =>
        obtain ⟨out, hout⟩ := hp iface.supplier pre hpre
          ((delta.get_deviation iface.consumer).assumption_strengthening.project iface.vars)
        simp only [hout]
        split
        · exact ⟨_, rfl⟩
        · cases hcomp : net.get_component iface.supplier with
          | none => exact ⟨_, rfl⟩
          | some comp => exact ⟨_, rfl⟩

theorem forwardPass_ok (net : ContractNetwork) (posts : List (String × Transformer))
    (delta : DeviationMap) (hp : AllOk posts) :
    ∀ (ifaces : List Interface) (acc : DeviationMap × Nat),
      ∃ q, forwardPass net posts delta ifaces acc = .ok q := by
  intro ifaces
  induction ifaces with
  | nil => intro acc; exact ⟨acc, rfl⟩
  | cons iface rest ih =>
    intro acc
    obtain ⟨q, hq⟩ := forwardStep_ok net posts delta iface acc hp
    obtain ⟨q', hq'⟩ := ih q
    exact ⟨q', by simp [forwardPass, hq, hq']⟩

theorem backwardPass_ok (net : ContractNetwork) (pres : List (String × Transformer))
    (delta : DeviationMap) (hp : AllOk pres) :
    ∀ (ifaces : List Interface) (acc : DeviationMap × Nat),
      ∃ q, backwardPass net pres delta ifaces acc = .ok q := by
  intro ifaces
  induction ifaces with
  | nil => intro acc; exact ⟨acc, rfl⟩
  | cons iface rest ih =>
    intro acc
    obtain ⟨q, hq⟩ := backwardStep_ok net pres delta iface acc hp
    obtain ⟨q', hq'⟩ := ih q
    exact ⟨q', by simp [backwardPass, hq, hq']⟩

theorem applyPhi_ok (net : ContractNetwork) (posts pres : List (String × Transformer))
    (hp : AllOk posts) (hq : AllOk pres) (delta : DeviationMap) :
    ∃ p, applyPhi net posts pres delta = .ok p := by
  obtain ⟨a, ha⟩ := forwardPass_ok net posts delta hp net.interfaces (delta.copy, 0)
  obtain ⟨b, hb⟩ := backwardPass_ok net pres delta hq net.interfaces a
  exact ⟨b, by simp [applyPhi, ha, hb]⟩

theorem allOk_postsC3 : AllOk postsC3 := by
  intro name f h bs
  by_cases hn : "B" = name
  · simp only [postsC3, alGet, if_pos hn, Option.some.injEq] at h
    subst h
    exact ⟨bs, rfl⟩
  · simp [postsC3, alGet, hn] at h

theorem allOk_presC3 : AllOk presC3 := by
  intro name f h bs
  simp [presC3, alGet] at h

/-- C3: the spec claims the two-component example network converges at
iteration 1, but the code cannot report convergence at all.  Constructing
the fixpoint engine calls the nonexistent BehaviorSet.volume inside
_calculate_baseline_volumes and raises AttributeError before run starts;
even the bare iteration loop (the constructor bypassed) raises the same
AttributeError inside _compute_metrics before the convergence check is
reached, so no iteration ever records a converged flag. -/
theorem C3_attribute_error_before_convergence_check :
    fixpointRun netC3 postsC3 presC3 100 initC3 =
      Except.error (PyErr.attributeError "volume") ∧
    fixpointRunAux netC3 postsC3 presC3 100 1 initC3.copy [] =
      Except.error (PyErr.attributeError "volume") ∧
    firstIterConverged (fixpointRun netC3 postsC3 presC3 100 initC3) = none := by
  refine ⟨rfl, ?_, rfl⟩
  rfl

theorem forwardStep_shape (net : ContractNetwork) (posts : List (String × Transformer))
    (delta : DeviationMap) (iface : Interface) (acc : DeviationMap × Nat)
    (e0 : MILPTransformFailure) (hp : AllFail posts e0) (he : e0.edge_context = none) :
    (∃ q, forwardStep net posts delta iface acc = .ok q) ∨
    forwardStep net posts delta iface acc =
      .error { e0 with edge_context := some (iface.supplier, iface.consumer, iface.vars) } := by
  unfold forwardStep
  dsimp only
  split
  · exact Or.inl ⟨acc, rfl⟩
  · split
    · exact Or.inl ⟨acc, rfl⟩
    · cases hpost : alGet posts iface.consumer with
      | none => exact Or.inl ⟨_, rfl⟩
      | some post =>
        have hfail := hp iface.consumer post hpost
          ((delta.get_deviation iface.supplier).guarantee_relaxation.project iface.vars)
        simp only [hfail]
        right
        simp [enrichEdge, he]

theorem backwardStep_shape (net : ContractNetwork) (pres : List (String × Transformer))
    (delta : DeviationMap) (iface : Interface) (acc : DeviationMap × Nat)
    (e0 : MILPTransformFailure) (hq : AllFail pres e0) (he : e0.edge_context = none) :
    (∃ q, backwardStep net pres delta iface acc = .ok q) ∨
    backwardStep net pres delta iface acc =
      .error { e0 with edge_context := some (iface.supplier, iface.consumer, iface.vars) } := by
  unfold backwardStep
  dsimp only
  split
  · exact Or.inl ⟨acc, rfl⟩
  · split
    · exact Or.inl ⟨acc, rfl⟩
    · cases hpre : alGet pres iface.supplier with
      | none => exact Or.inl ⟨_, rfl⟩
      | some pre =>
        have hfail := hq iface.supplier pre hpre
          ((delta.get_deviation iface.consumer).assumption_strengthening.project iface.vars)
        simp only [hfail]
        right
        simp [enrichEdge, he]

theorem forwardStep_error_of_trigger (net : ContractNetwork)
    (posts : List (String × Transformer)) (delta : DeviationMap) (iface : Interface)
    (acc : DeviationMap × Nat) (e0 : MILPTransformFailure)
    (hp : AllFail posts e0) (he : e0.edge_context = none)
    (h1 : (delta.get_deviation iface.supplier).guarantee_relaxation.isEmptyB = false)
    (h2 : ((delta.get_deviation iface.supplier).guarantee_relaxation.project
        iface.vars).isEmptyB = false)
    (h3 : (alGet posts iface.consumer).isSome) :
    forwardStep net posts delta iface acc =
      .error { e0 with edge_context := some (iface.supplier, iface.consumer, iface.vars) } := by
  unfold forwardStep
  dsimp only
  rw [if_neg (by simp [h1])]
  rw [if_neg (by simp [h2])]
  obtain ⟨post, hpost⟩ := Option.isSome_iff_exists.mp h3
  have hfail := hp iface.consumer post hpost
    ((delta.get_deviation iface.supplier).guarantee_relaxation.project iface.vars)
  simp only [hpost, hfail]
  simp [enrichEdge, he]

theorem backwardStep_error_of_trigger (net : ContractNetwork)
    (pres : List (String × Transformer)) (delta : DeviationMap) (iface : Interface)
    (acc : DeviationMap × Nat) (e0 : MILPTransformFailure)
    (hq : AllFail pres e0) (he : e0.edge_context = none)
    (h1 : (delta.get_deviation iface.consumer).assumption_strengthening.isEmptyB = false)
    (h2 : ((delta.get_deviation iface.consumer).assumption_strengthening.project
        iface.vars).isEmptyB = false)
    (h3 : (alGet pres iface.supplier).isSome) :
    backwardStep net pres delta iface acc =
      .error { e0 with edge_context := some (iface.supplier, iface.consumer, iface.vars) } := by
  unfold backwardStep
  dsimp only
  rw [if_neg (by simp [h1])]
  rw [if_neg (by simp [h2])]
  obtain ⟨pre, hpre⟩ := Option.isSome_iff_exists.mp h3
  have hfail := hq iface.supplier pre hpre
    ((delta.get_deviation iface.consumer).assumption_strengthening.project iface.vars)
  simp only [hpre, hfail]
  simp [enrichEdge, he]

theorem forwardPass_shape (net : ContractNetwork) (posts : List (String × Transformer))
    (delta : DeviationMap) (e0 : MILPTransformFailure)
    (hp : AllFail posts e0) (he : e0.edge_context = none) :
    ∀ (ifaces : List Interface) (acc : DeviationMap × Nat),
      (∃ q, forwardPass net posts delta ifaces acc = .ok q) ∨
      (∃ s c vs, forwardPass net posts delta ifaces acc =
        .error { e0 with edge_context := some (s, c, vs) }) := by
  intro ifaces
  induction ifaces with
  | nil => intro acc; exact Or.inl ⟨acc, rfl⟩
  | cons iface rest ih =>
    intro acc
    rcases forwardStep_shape net posts delta iface acc e0 hp he with ⟨q, hstep⟩ | hstep
    · rcases ih q with ⟨q', hq'⟩ | ⟨s, c, vs, hrr⟩
      · exact Or.inl ⟨q', by simp [forwardPass, hstep, hq']⟩
      · exact Or.inr ⟨s, c, vs, by simp [forwardPass, hstep, hrr]⟩
    · exact Or.inr ⟨iface.supplier, iface.consumer, iface.vars,
        by simp [forwardPass, hstep]⟩

theorem forwardPass_error_of_trigger (net : ContractNetwork)
    (posts : List (String × Transformer)) (delta : DeviationMap)
    (e0 : MILPTransformFailure) (hp : AllFail posts e0) (he : e0.edge_context = none) :
    ∀ (ifaces : List Interface) (acc : DeviationMap × Nat),
      (∃ iface ∈ ifaces,
        (delta.get_deviation iface.supplier).guarantee_relaxation.isEmptyB = false ∧
        ((delta.get_deviation iface.supplier).guarantee_relaxation.project
            iface.vars).isEmptyB = false ∧
        (alGet posts iface.consumer).isSome) →
      ∃ s c vs, forwardPass net posts delta ifaces acc =
        .error { e0 with edge_context := some (s, c, vs) } := by
  intro ifaces
  induction ifaces with
  | nil =>
    intro acc h
    obtain ⟨if0, hmem, _⟩ := h
    cases hmem
  | cons iface rest ih =>
    intro acc h
    obtain ⟨if0, hmem, h1, h2, h3⟩ := h
    rcases List.mem_cons.mp hmem with heq | hmem'
    · subst heq
      have hstep := forwardStep_error_of_trigger net posts delta if0 acc e0 hp he h1 h2 h3
      exact ⟨if0.supplier, if0.consumer, if0.vars, by simp [forwardPass, hstep]⟩
    · rcases forwardStep_shape net posts delta iface acc e0 hp he with ⟨q, hstep⟩ | hstep
      · obtain ⟨s, c, vs, hres⟩ := ih q ⟨if0, hmem', h1, h2, h3⟩
        exact ⟨s, c, vs, by simp [forwardPass, hstep, hres]⟩
      · exact ⟨iface.supplier, iface.consumer, iface.vars, by simp [forwardPass, hstep]⟩

theorem backwardPass_error_of_trigger (net : ContractNetwork)
    (pres : List (String × Transformer)) (delta : DeviationMap)
    (e0 : MILPTransformFailure) (hq : AllFail pres e0) (he : e0.edge_context = none) :
    ∀ (ifaces : List Interface) (acc : DeviationMap × Nat),
      (∃ iface ∈ ifaces,
        (delta.get_deviation iface.consumer).assumption_strengthening.isEmptyB = false ∧
        ((delta.get_deviation iface.consumer).assumption_strengthening.project
            iface.vars).isEmptyB = false ∧
        (alGet pres iface.supplier).isSome) →
      ∃ s c vs, backwardPass net pres delta ifaces acc =
        .error { e0 with edge_context := some (s, c, vs) } := by
  intro ifaces
  induction ifaces with
  | nil =>
    intro acc h
    obtain ⟨if0, hmem, _⟩ := h
    cases hmem
  | cons iface rest ih =>
    intro acc h
    obtain ⟨if0, hmem, h1, h2, h3⟩ := h
    rcases List.mem_cons.mp hmem with heq | hmem'
    · subst heq
      have hstep := backwardStep_error_of_trigger net pres delta if0 acc e0 hq he h1 h2 h3
      exact ⟨if0.supplier, if0.consumer, if0.vars, by simp [backwardPass, hstep]⟩
    · rcases backwardStep_shape net pres delta iface acc e0 hq he with ⟨q, hstep⟩ | hstep
      · obtain ⟨s, c, vs, hres⟩ := ih q ⟨if0, hmem', h1, h2, h3⟩
        exact ⟨s, c, vs, by simp [backwardPass, hstep, hres]⟩
      · exact ⟨iface.supplier, iface.consumer, iface.vars, by simp [backwardPass, hstep]⟩

theorem applyPhi_error_of_trigger (net : ContractNetwork)
    (posts pres : List (String × Transformer)) (e0 : MILPTransformFailure)
    (delta : DeviationMap)
    (hp : AllFail posts e0) (hq : AllFail pres e0) (he : e0.edge_context = none)
    (htrig : (∃ iface, TriggersForward net posts delta iface) ∨
             (∃ iface, TriggersBackward net pres delta iface)) :
    ∃ s c vs, applyPhi net posts pres delta =
      .error { e0 with edge_context := some (s, c, vs) } := by
  unfold applyPhi
  rcases htrig with ⟨iface, hmem, h1, h2, h3⟩ | ⟨iface, hmem, h1, h2, h3⟩
  · obtain ⟨s, c, vs, herr⟩ := forwardPass_error_of_trigger net posts delta e0 hp he
      net.interfaces (delta.copy, 0) ⟨iface, hmem, h1, h2, h3⟩
    exact ⟨s, c, vs, by simp [herr]⟩
  · rcases forwardPass_shape net posts delta e0 hp he net.interfaces (delta.copy, 0) with
      ⟨q, hfwd⟩ | ⟨s, c, vs, herr⟩
    · obtain ⟨s, c, vs, herr⟩ := backwardPass_error_of_trigger net pres delta e0 hq he
        net.interfaces q ⟨iface, hmem, h1, h2, h3⟩
      exact ⟨s, c, vs, by simp [hfwd, herr]⟩
    · exact ⟨s, c, vs, by simp [herr]⟩

/-- C7: the spec claims a failing MILP transformer makes the fixpoint run
abort by raising that failure enriched with iteration number and edge
context, but in the code that abort is unreachable from a fixpoint run:
engine construction raises AttributeError (BehaviorSet has no volume
attribute) before any transformer is called.  On the two-node network with
the always-infeasible post transformer registered for B — which fails on
every input, as the first conjunct certifies — the run surfaces the
AttributeError, not the MILP transform failure. -/
theorem C7_attribute_error_preempts_transformer_failure :
    (∀ bs, (alGet postsC7 "B").map (fun f => f bs) = some (Except.error e0c)) ∧
    fixpointRun netC3 postsC7 presC3 100 initC3 =
      Except.error (PyErr.attributeError "volume") ∧
    firstIterConverged (fixpointRun netC3 postsC7 presC3 100 initC3) = none :=
  ⟨fun _ => rfl, rfl, rfl⟩

theorem alGet_alSet_self {α : Type} (l : List (String × α)) (k : String) (v : α) :
    alGet (alSet l k v) k = some v := by
  induction l with
  | nil => simp [alSet, alGet]
  | cons hd tl ih =>
    obtain ⟨k', v'⟩ := hd
    by_cases h : k' = k
    · simp [alSet, alGet, h]
    · simp [alSet, alGet, h, ih]

theorem alGet_alSet_ne {α : Type} (l : List (String × α)) (k u : String) (v : α)
    (h : u ≠ k) : alGet (alSet l k v) u = alGet l u := by
  induction l with
  | nil =>
    simp only [alSet, alGet]
    rw [if_neg (fun hh => h hh.symm)]
  | cons hd tl ih =>
    obtain ⟨k', v'⟩ := hd
    by_cases hk : k' = k
    · subst hk
      simp only [alSet, if_pos rfl, alGet]
      rw [if_neg (fun hh => h hh.symm), if_neg (fun hh => h hh.symm)]
    · simp only [alSet, if_neg hk, alGet]
      by_cases hu : k' = u
      · rw [if_pos hu, if_pos hu]
      · rw [if_neg hu, if_neg hu, ih]

theorem alGet_none_iff_not_mem_keys {α : Type} (l : List (String × α)) (k : String) :
    alGet l k = none ↔ k ∉ keysOf l := by
  induction l with
  | nil => simp [alGet, keysOf]
  | cons hd tl ih =>
    obtain ⟨k', v'⟩ := hd
    simp only [keysOf, List.map_cons, List.mem_cons] at ih ⊢
    by_cases h : k' = k
    · subst h
      simp [alGet]
    · simp only [alGet, if_neg h]
      constructor
      · intro hnone hmem
        rcases hmem with hh | hh
        · exact h hh.symm
        · exact (ih.mp hnone) hh
      · intro hmem
        exact ih.mpr (fun hh => hmem (Or.inr hh))

theorem alSet_of_none {α : Type} (l : List (String × α)) (k : String) (v : α)
    (h : alGet l k = none) : alSet l k v = l ++ [(k, v)] := by
  induction l with
  | nil => simp [alSet]
  | cons hd tl ih =>
    obtain ⟨k', v'⟩ := hd
    by_cases hk : k' = k
    · simp [alGet, hk] at h
    · simp only [alGet, if_neg hk] at h
      simp [alSet, hk, ih h]

theorem alGet_append_left {α : Type} (l ext : List (String × α)) (k : String)
    (h : (alGet l k).isSome = true) : alGet (l ++ ext) k = alGet l k := by
  induction l with
  | nil => simp [alGet] at h
  | cons hd tl ih =>
    obtain ⟨k', v'⟩ := hd
    by_cases hk : k' = k
    · simp [alGet, hk]
    · simp only [alGet, if_neg hk, List.cons_append] at h ⊢
      exact ih h

theorem lookupBool_alSet_self (l : List (String × Bool)) (k : String) (b : Bool) :
    lookupBool (alSet l k b) k = b := by
  simp [lookupBool, alGet_alSet_self]

theorem lookupBool_alSet_ne (l : List (String × Bool)) (k u : String) (b : Bool)
    (h : u ≠ k) : lookupBool (alSet l k b) u = lookupBool l u := by
  simp [lookupBool, alGet_alSet_ne l k u b h]

theorem nodup_subset_length_le (l m : List String) (hn : l.Nodup)
    (hs : ∀ a ∈ l, a ∈ m) : l.length ≤ m.length := by
  calc l.length = l.toFinset.card := (List.toFinset_card_of_nodup hn).symm
    _ ≤ m.toFinset.card := Finset.card_le_card (fun a ha => by
        simp only [List.mem_toFinset] at ha ⊢
        exact hs a ha)
    _ ≤ m.length := List.toFinset_card_le m

theorem consumers_mem_names (net : ContractNetwork) (hwf : NetWF net) (v w : String)
    (h : w ∈ net.get_consumers v) : w ∈ net.names := by
  unfold ContractNetwork.get_consumers at h
  obtain ⟨iface, hif, rfl⟩ := List.mem_map.mp h
  exact hwf iface (List.mem_filter.mp hif).1

theorem psSpec_of_scSpec (net : ContractNetwork) (fuel : Nat)
    (hacyc : Acyclic net) (hsc : SCspec net fuel) : PSspec net fuel := by
  intro ws
  induction ws with
  | nil =>
    intro v iv st hinv hedge hnames hiv hlv hlt hpath hfuel
    have h0 : processSucc net fuel v [] st = st := by simp only [processSucc]
    rw [h0]
    exact ⟨hinv, rfl, le_refl _, ⟨[], by simp⟩, hiv, hlv,
      fun u _ _ => ⟨rfl, rfl⟩, ⟨[], by simp, by simp⟩⟩
  | cons w ws ih =>
    intro v iv st hinv hedge hnames hiv hlv hlt hpath hfuel
    by_cases hidx : (alGet st.indexMap w).isNone = true
    · -- the successor is unvisited: recurse into it
      have hnone : alGet st.indexMap w = none := Option.isNone_iff_eq_none.mp hidx
      obtain ⟨cinv, cstack, ccnt, ⟨ext, hext, hextlen⟩, cIdxW, cLowW, cPres,
          ⟨cnews, csccs, csings⟩⟩ :=
        hsc w st hinv hnone (hnames w (List.mem_cons_self _ _))
          (fun u hu => Relation.ReflTransGen.tail (hpath u hu)
            (hedge w (List.mem_cons_self _ _)))
          hfuel
      have hvsome : (alGet st.indexMap v).isSome = true := by rw [hiv]; rfl
      obtain ⟨presIdxV, presLowV⟩ := cPres v hvsome
      have hplv : alGet (strongconnect net fuel w st).lowlink v = some iv := by
        rw [presLowV, hlv]
      have hstep : processSucc net fuel v (w :: ws) st =
          processSucc net fuel v ws
            { strongconnect net fuel w st with
              lowlink := alSet (strongconnect net fuel w st).lowlink v iv } := by
        simp only [processSucc]
        rw [if_pos hidx, hplv, cLowW]
        simp only [Option.getD_some]
        rw [min_eq_left (Nat.le_of_lt hlt)]
      rw [hstep]
      have hinv'' : TarjanInv net
          { strongconnect net fuel w st with
            lowlink := alSet (strongconnect net fuel w st).lowlink v iv } := cinv
      have hidx'' : alGet ({ strongconnect net fuel w st with
          lowlink := alSet (strongconnect net fuel w st).lowlink v iv }).indexMap v
            = some iv := by
        show alGet (strongconnect net fuel w st).indexMap v = some iv
        rw [presIdxV, hiv]
      obtain ⟨finv, fstack, fcnt, ⟨ext2, hext2⟩, fIdxV, fLowV, fPres,
          ⟨news2, fsccs, fsings⟩⟩ :=
        ih v iv _ hinv''
          (fun w' hw' => hedge w' (List.mem_cons_of_mem _ hw'))
          (fun w' hw' => hnames w' (List.mem_cons_of_mem _ hw'))
          hidx''
          (by show alGet (alSet (strongconnect net fuel w st).lowlink v iv) v = some iv
              exact alGet_alSet_self _ _ _)
          (lt_trans hlt ccnt)
          (by show ∀ u ∈ (strongconnect net fuel w st).stack, _
              rw [cstack]
              exact hpath)
          (by show net.names.length + 1 ≤ fuel + (strongconnect net fuel w st).indexMap.length
              rw [hext, List.length_append]
              omega)
      refine ⟨finv, ?_, ?_, ?_, fIdxV, fLowV, ?_, ?_⟩
      · rw [fstack]
        exact cstack
      · calc st.counter ≤ (strongconnect net fuel w st).counter := Nat.le_of_lt ccnt
          _ = ({ strongconnect net fuel w st with
                lowlink := alSet (strongconnect net fuel w st).lowlink v iv }).counter := rfl
          _ ≤ _ := fcnt
      · refine ⟨ext ++ ext2, ?_⟩
        rw [hext2]
        show (strongconnect net fuel w st).indexMap ++ ext2 = st.indexMap ++ (ext ++ ext2)
        rw [hext, List.append_assoc]
      · intro u hune husome
        obtain ⟨p1, p2⟩ := cPres u husome
        have husome'' : (alGet ({ strongconnect net fuel w st with
            lowlink := alSet (strongconnect net fuel w st).lowlink v iv }).indexMap
              u).isSome = true := by
          show (alGet (strongconnect net fuel w st).indexMap u).isSome = true
          rw [p1]
          exact husome
        obtain ⟨q1, q2⟩ := fPres u hune husome''
        constructor
        · rw [q1]
          exact p1
        · rw [q2]
          show alGet (alSet (strongconnect net fuel w st).lowlink v iv) u = alGet st.lowlink u
          rw [alGet_alSet_ne _ _ _ _ hune, p2]
      · refine ⟨cnews ++ news2, ?_, ?_⟩
        · rw [fsccs]
          show (strongconnect net fuel w st).sccs ++ news2 = st.sccs ++ (cnews ++ news2)
          rw [csccs, List.append_assoc]
        · intro l hl
          rcases List.mem_append.mp hl with h | h
          · exact csings l h
          · exact fsings l h
    · by_cases hos : lookupBool st.onStack w = true
      · -- impossible in an acyclic graph: w is a stack ancestor of v
        exfalso
        have hwstack : w ∈ st.stack := (hinv.1 w).mp hos
        exact hacyc v (Relation.TransGen.head'
          (hedge w (List.mem_cons_self _ _)) (hpath w hwstack))
      · -- already finished successor: state unchanged
        have hstep : processSucc net fuel v (w :: ws) st = processSucc net fuel v ws st := by
          simp only [processSucc]
          rw [if_neg hidx, if_neg hos]
        rw [hstep]
        exact ih v iv st hinv
          (fun w' hw' => hedge w' (List.mem_cons_of_mem _ hw'))
          (fun w' hw' => hnames w' (List.mem_cons_of_mem _ hw'))
          hiv hlv hlt hpath hfuel

theorem scSpec_zero (net : ContractNetwork) : SCspec net 0 := by
  intro v st hinv hnone hvname hpath hfuel
  exfalso
  have hlen : (keysOf st.indexMap).length ≤ net.names.length :=
    nodup_subset_length_le (keysOf st.indexMap) net.names hinv.2.2.1 hinv.2.2.2.1
  have hkl : (keysOf st.indexMap).length = st.indexMap.length := List.length_map _ _
  omega

theorem scSpec_succ (net : ContractNetwork) (fuel : Nat)
    (hwf : NetWF net)
    (hps : PSspec net fuel) : SCspec net (fuel + 1) := by
  intro v st hinv hnone hvname hpath hfuel
  have hset : alSet st.indexMap v st.counter = st.indexMap ++ [(v, st.counter)] :=
    alSet_of_none _ _ _ hnone
  have hvnotstack : v ∉ st.stack := by
    intro hv
    have := hinv.2.1 v hv
    rw [hnone] at this
    exact Bool.noConfusion this
  set st1 : TarjanSt :=
    { counter := st.counter + 1
      indexMap := alSet st.indexMap v st.counter
      lowlink := alSet st.lowlink v st.counter
      stack := v :: st.stack
      onStack := alSet st.onStack v true
      sccs := st.sccs } with hst1
  have hinv1 : TarjanInv net st1 := by
    refine ⟨?_, ?_, ?_, ?_, ?_⟩
    · intro u
      by_cases hu : u = v
      · subst hu
        show lookupBool (alSet st.onStack u true) u = true ↔ u ∈ u :: st.stack
        rw [lookupBool_alSet_self]
        exact iff_of_true rfl (List.mem_cons_self _ _)
      · show lookupBool (alSet st.onStack v true) u = true ↔ u ∈ v :: st.stack
        rw [lookupBool_alSet_ne _ _ _ _ hu]
        rw [hinv.1 u]
        constructor
        · exact fun h => List.mem_cons_of_mem _ h
        · intro h
          rcases List.mem_cons.mp h with h | h
          · exact absurd h hu
          · exact h
    · intro u hu
      by_cases huv : u = v
      · subst huv
        show (alGet (alSet st.indexMap u st.counter) u).isSome = true
        rw [alGet_alSet_self]
        rfl
      · show (alGet (alSet st.indexMap v st.counter) u).isSome = true
        rw [alGet_alSet_ne _ _ _ _ huv]
        rcases List.mem_cons.mp hu with h | h
        · exact absurd h huv
        · exact hinv.2.1 u h
    · show (keysOf (alSet st.indexMap v st.counter)).Nodup
      rw [hset]
      unfold keysOf
      rw [List.map_append]
      apply List.nodup_append.mpr
      refine ⟨hinv.2.2.1, by simp, ?_⟩
      intro a ha hb
      simp only [List.map_cons, List.map_nil, List.mem_cons, List.not_mem_nil,
        or_false] at hb
      subst hb
      exact (alGet_none_iff_not_mem_keys st.indexMap a).mp hnone ha
    · intro k hk
      show k ∈ net.names
      have hk2 : k ∈ keysOf (alSet st.indexMap v st.counter) := hk
      rw [hset] at hk2
      replace hk := hk2
      unfold keysOf at hk
      rw [List.map_append] at hk
      rcases List.mem_append.mp hk with h | h
      · exact hinv.2.2.2.1 k h
      · simp only [List.map_cons, List.map_nil, List.mem_cons,
          List.not_mem_nil, or_false] at h
        subst h
        exact hvname
    · intro p hp
      show p.2 < st.counter + 1
      have hp2 : p ∈ alSet st.indexMap v st.counter := hp
      rw [hset] at hp2
      replace hp := hp2
      rcases List.mem_append.mp hp with h | h
      · exact Nat.lt_succ_of_lt (hinv.2.2.2.2 p h)
      · simp only [List.mem_cons, List.not_mem_nil, or_false] at h
        subst h
        exact Nat.lt_succ_self _
  obtain ⟨pinv, pstack, pcnt, ⟨ext2, hext2⟩, pIdxV, pLowV, pPres, ⟨news, psccs, psings⟩⟩ :=
    hps (net.get_consumers v) v st.counter st1 hinv1
      (fun w hw => hw)
      (fun w hw => consumers_mem_names net hwf v w hw)
      (alGet_alSet_self _ _ _)
      (alGet_alSet_self _ _ _)
      (Nat.lt_succ_self _)
      (by intro u hu
          rcases List.mem_cons.mp hu with h | h
          · subst h
            exact Relation.ReflTransGen.refl
          · exact hpath u h)
      (by show net.names.length + 1 ≤ fuel + (alSet st.indexMap v st.counter).length
          rw [hset, List.length_append]
          simp only [List.length_cons, List.length_nil]
          omega)
  have hstack2 : (processSucc net fuel v (net.get_consumers v) st1).stack = v :: st.stack :=
    pstack
  have hroot : alGet (processSucc net fuel v (net.get_consumers v) st1).lowlink v =
      alGet (processSucc net fuel v (net.get_consumers v) st1).indexMap v := by
    rw [pIdxV, pLowV]
  have hpop : popUntil v (processSucc net fuel v (net.get_consumers v) st1).stack
      (processSucc net fuel v (net.get_consumers v) st1).onStack =
      ([v], st.stack,
        alSet (processSucc net fuel v (net.get_consumers v) st1).onStack v false) := by
    rw [hstack2]
    simp [popUntil]
  have hfin : strongconnect net (fuel + 1) v st =
      { processSucc net fuel v (net.get_consumers v) st1 with
        stack := st.stack,
        onStack := alSet (processSucc net fuel v (net.get_consumers v) st1).onStack v false,
        sccs := (processSucc net fuel v (net.get_consumers v) st1).sccs ++ [[v]] } := by
    simp only [strongconnect]
    rw [← hst1]
    rw [if_pos hroot, hpop]
    simp [sortLe, insertLe]
  rw [hfin]
  have hvne : ∀ u, (alGet st.indexMap u).isSome = true → u ≠ v := by
    intro u hus huv
    subst huv
    rw [hnone] at hus
    exact Bool.noConfusion hus
  refine ⟨?_, rfl, ?_, ?_, ?_, ?_, ?_, ?_⟩
  · refine ⟨?_, ?_, pinv.2.2.1, pinv.2.2.2.1, pinv.2.2.2.2⟩
    · intro u
      by_cases hu : u = v
      · subst hu
        show lookupBool (alSet _ u false) u = true ↔ u ∈ st.stack
        rw [lookupBool_alSet_self]
        exact iff_of_false Bool.false_ne_true hvnotstack
      · show lookupBool (alSet _ v false) u = true ↔ u ∈ st.stack
        rw [lookupBool_alSet_ne _ _ _ _ hu]
        rw [pinv.1 u, hstack2]
        constructor
        · intro h
          rcases List.mem_cons.mp h with h | h
          · exact absurd h hu
          · exact h
        · exact fun h => List.mem_cons_of_mem _ h
    · intro u hu
      exact pinv.2.1 u (by rw [hstack2]; exact List.mem_cons_of_mem _ hu)
  · show st.counter < (processSucc net fuel v (net.get_consumers v) st1).counter
    calc st.counter < st.counter + 1 := Nat.lt_succ_self _
      _ ≤ _ := pcnt
  · refine ⟨[(v, st.counter)] ++ ext2, ?_, by simp⟩
    show (processSucc net fuel v (net.get_consumers v) st1).indexMap = _
    rw [hext2]
    show st1.indexMap ++ ext2 = st.indexMap ++ ([(v, st.counter)] ++ ext2)
    rw [hst1]
    show alSet st.indexMap v st.counter ++ ext2 = _
    rw [hset, List.append_assoc]
  · exact pIdxV
  · exact pLowV
  · intro u hus
    have hune : u ≠ v := hvne u hus
    have hus1 : (alGet st1.indexMap u).isSome = true := by
      rw [hst1]
      show (alGet (alSet st.indexMap v st.counter) u).isSome = true
      rw [alGet_alSet_ne _ _ _ _ hune]
      exact hus
    obtain ⟨q1, q2⟩ := pPres u hune hus1
    constructor
    · show alGet (processSucc net fuel v (net.get_consumers v) st1).indexMap u =
        alGet st.indexMap u
      rw [q1, hst1]
      show alGet (alSet st.indexMap v st.counter) u = alGet st.indexMap u
      exact alGet_alSet_ne _ _ _ _ hune
    · show alGet (processSucc net fuel v (net.get_consumers v) st1).lowlink u =
        alGet st.lowlink u
      rw [q2, hst1]
      show alGet (alSet st.lowlink v st.counter) u = alGet st.lowlink u
      exact alGet_alSet_ne _ _ _ _ hune
  · refine ⟨news ++ [[v]], ?_, ?_⟩
    · show (processSucc net fuel v (net.get_consumers v) st1).sccs ++ [[v]] = _
      rw [psccs]
      show st1.sccs ++ news ++ [[v]] = st.sccs ++ (news ++ [[v]])
      rw [hst1]
      show st.sccs ++ news ++ [[v]] = st.sccs ++ (news ++ [[v]])
      rw [List.append_assoc]
    · intro l hl
      rcases List.mem_append.mp hl with h | h
      · exact psings l h
      · simp only [List.mem_cons, List.not_mem_nil, or_false] at h
        subst h
        rfl

theorem scSpec_all (net : ContractNetwork) (hacyc : Acyclic net) (hwf : NetWF net) :
    ∀ fuel, SCspec net fuel
  | 0 => scSpec_zero net
  | fuel + 1 =>
    scSpec_succ net fuel hwf
      (psSpec_of_scSpec net fuel hacyc (scSpec_all net hacyc hwf fuel))

theorem mem_insertLe {α : Type} (le : α → α → Bool) (x a : α) :
    ∀ l, a ∈ insertLe le x l → a = x ∨ a ∈ l
  | [], h => by simpa [insertLe] using h
  | b :: t, h => by
    simp only [insertLe] at h
    by_cases hc : le x b = true
    · rw [if_pos hc] at h
      rcases List.mem_cons.mp h with h1 | h1
      · exact Or.inl h1
      · exact Or.inr h1
    · rw [if_neg hc] at h
      rcases List.mem_cons.mp h with h1 | h1
      · subst h1
        exact Or.inr (List.mem_cons_self _ _)
      · rcases mem_insertLe le x a t h1 with h2 | h2
        · exact Or.inl h2
        · exact Or.inr (List.mem_cons_of_mem _ h2)

theorem mem_sortLe {α : Type} (le : α → α → Bool) (a : α) :
    ∀ l, a ∈ sortLe le l → a ∈ l
  | [], h => by simp [sortLe] at h
  | b :: t, h => by
    simp only [sortLe] at h
    rcases mem_insertLe le b a _ h with h1 | h1
    · subst h1
      exact List.mem_cons_self _ _
    · exact List.mem_cons_of_mem _ (mem_sortLe le a t h1)

theorem tarjanFold_spec (net : ContractNetwork) (hacyc : Acyclic net) (hwf : NetWF net) :
    ∀ (vs : List String) (st : TarjanSt),
      (∀ v ∈ vs, v ∈ net.names) →
      TarjanInv net st →
      st.stack = [] →
      (∀ l ∈ st.sccs, l.length = 1) →
      TarjanInv net (tarjanFold net vs st) ∧
      (tarjanFold net vs st).stack = [] ∧
      (∀ l ∈ (tarjanFold net vs st).sccs, l.length = 1)
  | [], st, _, hinv, hstk, hsccs => by
    simp only [tarjanFold]
    exact ⟨hinv, hstk, hsccs⟩
  | v :: vs, st, hvs, hinv, hstk, hsccs => by
    simp only [tarjanFold]
    by_cases hidx : (alGet st.indexMap v).isNone = true
    · rw [if_pos hidx]
      have hnone : alGet st.indexMap v = none := Option.isNone_iff_eq_none.mp hidx
      have hfuel : net.names.length + 1 ≤ (net.components.length + 1) + st.indexMap.length := by
        have hl : net.names.length = net.components.length := by
          simp only [ContractNetwork.names, List.length_map]
        omega
      obtain ⟨cinv, cstack, -, -, -, -, -, news, hsc, hsings⟩ :=
        scSpec_all net hacyc hwf (net.components.length + 1) v st hinv hnone
          (hvs v (List.mem_cons_self _ _))
          (by rw [hstk]; intro u hu; exact absurd hu (List.not_mem_nil u))
          hfuel
      exact tarjanFold_spec net hacyc hwf vs _
        (fun u hu => hvs u (List.mem_cons_of_mem _ hu))
        cinv (by rw [cstack]; exact hstk)
        (by
          rw [hsc]
          intro l hl
          rcases List.mem_append.mp hl with h | h
          · exact hsccs l h
          · exact hsings l h)
    · rw [if_neg hidx]
      exact tarjanFold_spec net hacyc hwf vs st
        (fun u hu => hvs u (List.mem_cons_of_mem _ hu)) hinv hstk hsccs

/-- C6: strongly-connected-component detection on the triangle A to B to C
to A returns exactly one SCC equal to {A, B, C}, and on any acyclic network
(whose interfaces name existing components, as add_interface enforces)
every SCC returned by find_strongly_connected_components is a singleton. -/
theorem C6_scc_detection :
    find_strongly_connected_components triangleNet = [["A", "B", "C"]] ∧
    (∀ net : ContractNetwork, Acyclic net → NetWF net →
      ∀ l ∈ find_strongly_connected_components net, l.length = 1) := by
  constructor
  · simp [find_strongly_connected_components, tarjanFold, strongconnect, processSucc,
      ContractNetwork.get_consumers, ContractNetwork.names, triangleNet, mkNode, popUntil,
      alGet, alSet, lookupBool, sortLe, insertLe, sccOrd, strLeB, charListLe, keysOf]
  · intro net hacyc hwf l hl
    have hinit : TarjanInv net ⟨0, [], [], [], [], []⟩ := by
      refine ⟨?_, ?_, ?_, ?_, ?_⟩
      · intro u
        constructor
        · intro h
          simp [lookupBool, alGet] at h
        · intro h
          exact absurd h (List.not_mem_nil u)
      · intro u hu
        exact absurd hu (List.not_mem_nil u)
      · simp [keysOf]
      · intro k hk
        simp [keysOf] at hk
      · intro p hp
        exact absurd hp (List.not_mem_nil p)
    obtain ⟨-, -, hsings⟩ :=
      tarjanFold_spec net hacyc hwf net.names ⟨0, [], [], [], [], []⟩
        (fun v hv => hv) hinit rfl (fun s hs => absurd hs (List.not_mem_nil s))
    have hmem : l ∈ (tarjanFold net net.names ⟨0, [], [], [], [], []⟩).sccs := by
      simp only [find_strongly_connected_components] at hl
      exact mem_sortLe sccOrd l _ hl
    exact hsings l hmem

/-- Witness for C6: the two-node network A to B is acyclic and well formed,
and every SCC the code returns for it has exactly one member. -/
theorem C6_scc_witness :
    Acyclic dagNet2 ∧ NetWF dagNet2 ∧
    (find_strongly_connected_components dagNet2).all (fun l => l.length == 1) = true := by
  have hedge : ∀ x y, edgeRel dagNet2 x y → x = "A" ∧ y = "B" := by
    intro x y h
    simp only [edgeRel, ContractNetwork.get_consumers, dagNet2] at h
    rcases List.mem_map.mp h with ⟨i, hi, hyc⟩
    rcases List.mem_filter.mp hi with ⟨hmem, hsup⟩
    simp only [List.mem_singleton] at hmem
    subst hmem
    have hx : "A" = x := by simpa using hsup
    refine ⟨hx.symm, ?_⟩
    exact hyc.symm
  have hstep : ∀ x y, edgeRel dagNet2 x y →
      (if y = "A" then 1 else 0) < (if x = "A" then 1 else 0) := by
    intro x y h
    obtain ⟨hx, hy⟩ := hedge x y h
    subst hx
    subst hy
    simp
  have hmono : ∀ a b, Relation.TransGen (edgeRel dagNet2) a b →
      (if b = "A" then 1 else 0) < (if a = "A" then 1 else 0) := by
    intro a b h
    induction h with
    | single h1 => exact hstep _ _ h1
    | tail _ h1 ih => exact lt_trans (hstep _ _ h1) ih
  have hacyc : Acyclic dagNet2 := by
    intro v hv
    exact lt_irrefl _ (hmono v v hv)
  have hwf : NetWF dagNet2 := by
    intro iface hif
    simp only [dagNet2, List.mem_cons, List.not_mem_nil, or_false] at hif
    subst hif
    simp [ContractNetwork.names, dagNet2]
  refine ⟨hacyc, hwf, ?_⟩
  rw [List.all_eq_true]
  intro l hl
  have h := C6_scc_detection.2 dagNet2 hacyc hwf l hl
  simpa using h
